import Mathlib

/-!
Shallow embedding of the graph model and operations of
graph-theorists-sketchpad (src/graph.ts), together with proofs about the
claims of its specification.

Modelling conventions:
* THREE.Mesh node objects and Edge records are identified by a uid
  (object identity in JavaScript); a uidCounter in the state models the
  allocator.  Rendering-only data (positions, geometry, colors,
  materials) is omitted: no claim mentions it.
* CSS2D label text contents are carried as plain strings.
* JavaScript numbers used for offsets are embedded as rationals.
* The nodeCounter / edgeCounter fields are embedded as integers because
  the source decrements them transiently during deletions.
-/

/-- A graph node: a sphere mesh with its attached label element. -/
structure Node where
  uid : Nat
  label : String
deriving DecidableEq, Repr

/-- An edge record as stored in the edges array: endpoints are node
uids, plus the loop flag, the stored parallel offset (absent for loops)
and the attached label element text. -/
structure Edge where
  uid : Nat
  sphere1 : Nat
  sphere2 : Nat
  isLoop : Bool
  parallelOffset : Option ℚ
  label : String
deriving DecidableEq, Repr

/-- The mutable state of the Graph class that the claims are about:
the spheres and edges arrays and the id counters. -/
structure GraphState where
  spheres : List Node
  edges : List Edge
  nodeCounter : Int
  edgeCounter : Int
  uidCounter : Nat
deriving DecidableEq, Repr

/-- The initial state of a freshly constructed Graph. -/
def initialState : GraphState :=
  { spheres := [], edges := [], nodeCounter := 0, edgeCounter := 0, uidCounter := 0 }

/-- Whether a stored edge is a non-loop edge joining the unordered pair
of node uids (a, b); the filter used for parallel families in createEdge
and updateParallelEdgesForNodes. -/
def matchesPair (a b : Nat) (e : Edge) : Bool :=
  !e.isLoop &&
    ((e.sphere1 == a && e.sphere2 == b) || (e.sphere1 == b && e.sphere2 == a))

/-- The sort key used by updateParallelEdgesForNodes:
edge.parallelOffset or 0. -/
def offsetKey (e : Edge) : ℚ :=
  e.parallelOffset.getD 0

/-- Insert an edge into a list sorted ascending by offsetKey, before the
first element with a key at least as large (the stable ascending order
produced by Array.prototype.sort with the numeric comparator). -/
def insertByOffset (a : Edge) : List Edge → List Edge
  | [] => [a]
  | b :: bs => if offsetKey a ≤ offsetKey b then a :: b :: bs else b :: insertByOffset a bs

/-- Stable ascending sort by offsetKey, the behaviour of
relatedEdges.sort((a, b) => (a.parallelOffset || 0) - (b.parallelOffset || 0)). -/
def sortByOffset : List Edge → List Edge
  | [] => []
  | a :: as => insertByOffset a (sortByOffset as)

/-- The offset reassigned to edge e by updateParallelEdgesForNodes:
(i - mid) * baseOffset where i is e's position in the sorted family. -/
def recenterOffset (sorted : List Edge) (mid : Nat) (e : Edge) : Option ℚ :=
  (sorted.findIdx? (fun x => x.uid == e.uid)).map
    (fun i => ((i : ℚ) - (mid : ℚ)) * (1/2))

/-- The in-place reassignment applied by updateParallelEdgesForNodes to
an edge of the family being re-centred (the body of its forEach). -/
def recenterEdge (sorted : List Edge) (mid : Nat) (e : Edge) : Edge :=
  match recenterOffset sorted mid e with
  | some o => { e with parallelOffset := some o }
  | none => e

/-- updateParallelEdgesForNodes(sphere1, sphere2): collect the non-loop
edges joining the pair; if more than one, sort them by current offset
and reassign offsets (i - floor(count/2)) * 0.5 in sorted order, leaving
the edges array order itself unchanged (the source mutates the edge
objects in place). -/
def updateParallelEdgesForNodes (s1 s2 : Nat) (st : GraphState) : GraphState :=
  let relatedEdges := st.edges.filter (matchesPair s1 s2)
  if relatedEdges.length ≤ 1 then st
  else
    let sorted := sortByOffset relatedEdges
    let mid : Nat := relatedEdges.length / 2
    { st with
      edges := st.edges.map (fun e =>
        if matchesPair s1 s2 e then recenterEdge sorted mid e else e) }

/-- createNode: assign the next node id, append a sphere with label
"v" + nodeId. -/
def createNode (st : GraphState) : GraphState :=
  let nodeId := st.nodeCounter + 1
  let sphere : Node := { uid := st.uidCounter, label := "v" ++ toString nodeId }
  { st with
    spheres := st.spheres ++ [sphere]
    nodeCounter := nodeId
    uidCounter := st.uidCounter + 1 }

/-- The loop-rejection test of createEdge: whether some stored loop edge
is anchored at the node with uid u (edge.isLoop and edge.sphere1 is the
node). -/
def hasLoopOn (u : Nat) (st : GraphState) : Bool :=
  st.edges.any (fun e => e.isLoop && e.sphere1 == u)

/-- createEdge(sphere1, sphere2): pre-increment the edge counter; a loop
request on a node that already has a loop is rejected (only the counter
increment remains); otherwise the edge is stored with label "e" + edgeId
and, for a non-loop edge, the alternating-sign creation offset followed
by re-centering of its parallel family. -/
def createEdge (s1 s2 : Nat) (st : GraphState) : GraphState :=
  let edgeId := st.edgeCounter + 1
  let st := { st with edgeCounter := edgeId }
  if s1 == s2 then
    if hasLoopOn s1 st then
      st
    else
      let newEdge : Edge :=
        { uid := st.uidCounter, sphere1 := s1, sphere2 := s2, isLoop := true,
          parallelOffset := none, label := "e" ++ toString edgeId }
      { st with edges := st.edges ++ [newEdge], uidCounter := st.uidCounter + 1 }
  else
    let parallelCount := (st.edges.filter (matchesPair s1 s2)).length
    let offsetIndex : Nat := (parallelCount + 1) / 2
    let sign : ℚ := if parallelCount % 2 == 0 then 1 else -1
    let usedOffset : ℚ := sign * (offsetIndex : ℚ) * (1/2)
    let newEdge : Edge :=
      { uid := st.uidCounter, sphere1 := s1, sphere2 := s2, isLoop := false,
        parallelOffset := some usedOffset, label := "e" ++ toString edgeId }
    let st := { st with edges := st.edges ++ [newEdge], uidCounter := st.uidCounter + 1 }
    updateParallelEdgesForNodes s1 s2 st

/-- The state immediately after createEdge(u, v) (u different from v)
has pushed the new edge record, before the re-centering call: the stored
creation offset is sign * ceil(parallelCount / 2) * 0.5 with alternating
sign. -/
def pushNonLoopEdge (u v : Nat) (st : GraphState) : GraphState :=
  { st with
    edgeCounter := st.edgeCounter + 1
    edges := st.edges ++
      [{ uid := st.uidCounter, sphere1 := u, sphere2 := v, isLoop := false,
         parallelOffset := some
           ((if (st.edges.filter (matchesPair u v)).length % 2 == 0 then (1 : ℚ) else -1)
             * ((((st.edges.filter (matchesPair u v)).length + 1) / 2 : Nat) : ℚ) * (1/2)),
         label := "e" ++ toString (st.edgeCounter + 1) }]
    uidCounter := st.uidCounter + 1 }

/-- The label rewrite applied to the node in position k by
updateAllNodeLabels. -/
def relabelNode (k : Nat) (s : Node) : Node :=
  { s with label := "v" ++ toString (k + 1) }

/-- The label rewrite applied to the edge in position k by
updateAllEdgeLabels. -/
def relabelEdge (k : Nat) (e : Edge) : Edge :=
  { e with label := "e" ++ toString (k + 1) }

/-- updateAllNodeLabels: rewrite every node label to "v" + (index + 1)
and reset the node counter to the node count. -/
def updateAllNodeLabels (st : GraphState) : GraphState :=
  { st with
    spheres := ((List.range st.spheres.length).zip st.spheres).map
      (fun p => relabelNode p.1 p.2)
    nodeCounter := (st.spheres.length : Int) }

/-- updateAllEdgeLabels: rewrite every edge label to "e" + (index + 1)
and reset the edge counter to the edge count. -/
def updateAllEdgeLabels (st : GraphState) : GraphState :=
  { st with
    edges := ((List.range st.edges.length).zip st.edges).map
      (fun p => relabelEdge p.1 p.2)
    edgeCounter := (st.edges.length : Int) }

/-- deleteEdge(edge): decrement the edge counter, drop the edge (object
identity, modelled by uid) and renumber the edge labels. -/
def deleteEdge (target : Edge) (st : GraphState) : GraphState :=
  updateAllEdgeLabels
    { st with
      edgeCounter := st.edgeCounter - 1
      edges := st.edges.filter (fun e => e.uid != target.uid) }

/-- deleteNodeAndEdges(node): decrement the node counter, drop the node,
decrement the edge counter once per incident edge, drop every incident
edge, then renumber node and edge labels. -/
def deleteNodeAndEdges (node : Node) (st : GraphState) : GraphState :=
  let incident := st.edges.filter (fun e => e.sphere1 == node.uid || e.sphere2 == node.uid)
  updateAllEdgeLabels (updateAllNodeLabels
    { st with
      nodeCounter := st.nodeCounter - 1
      spheres := st.spheres.filter (fun s => s.uid != node.uid)
      edgeCounter := st.edgeCounter - (incident.length : Int)
      edges := st.edges.filter (fun e => e.sphere1 != node.uid && e.sphere2 != node.uid) })

/-- The delete-key path for a selected node: deleteNodeAndEdges followed
by the handler's updateAllNodeLabels and updateAllEdgeLabels calls. -/
def removeNodeOp (node : Node) (st : GraphState) : GraphState :=
  updateAllEdgeLabels (updateAllNodeLabels (deleteNodeAndEdges node st))

/-- The delete-key path for a selected edge: deleteEdge, then (for a
non-loop edge) re-centering of the remaining parallel siblings, then the
handler's label renumbering calls. -/
def removeEdgeOp (target : Edge) (st : GraphState) : GraphState :=
  let st1 := deleteEdge target st
  let st2 :=
    if target.sphere1 != target.sphere2 then
      updateParallelEdgesForNodes target.sphere1 target.sphere2 st1
    else st1
  updateAllEdgeLabels (updateAllNodeLabels st2)

/-- clearGraph: remove everything and reset the id counters. -/
def clearGraph (st : GraphState) : GraphState :=
  { st with spheres := [], edges := [], nodeCounter := 0, edgeCounter := 0 }

/-- The selection state of the interaction controller relevant to
selectNode: the uid of the first selected sphere, if any. -/
structure InteractionState where
  graph : GraphState
  firstSelectedSphere : Option Nat
deriving DecidableEq, Repr

/-- selectNode(clickedSphere): with no current selection, select the
clicked node; otherwise create an edge from the selected node to the
clicked one (a loop when they coincide) and deselect. -/
def selectNode (clicked : Nat) (ist : InteractionState) : InteractionState :=
  match ist.firstSelectedSphere with
  | none => { ist with firstSelectedSphere := some clicked }
  | some first =>
      { graph := createEdge first clicked ist.graph, firstSelectedSphere := none }

/-- The index of the node with uid u in the spheres array (the
nodeToIndex map built by the analysis methods). -/
def nodeIndex (st : GraphState) (u : Nat) : Nat :=
  st.spheres.findIdx (fun s => s.uid == u)

/-- adj[i].push(j). -/
def pushAdj (adj : List (List Nat)) (i j : Nat) : List (List Nat) :=
  adj.set i (adj.getD i [] ++ [j])

/-- The adjacency construction step shared by the analysis methods:
self edges (edge.sphere1 === edge.sphere2) are skipped, every other
edge is inserted in both directions. -/
def adjStep (st : GraphState) (adj : List (List Nat)) (e : Edge) : List (List Nat) :=
  if e.sphere1 == e.sphere2 then adj
  else
    pushAdj (pushAdj adj (nodeIndex st e.sphere1) (nodeIndex st e.sphere2))
      (nodeIndex st e.sphere2) (nodeIndex st e.sphere1)

/-- The adjacency list built over a given edge array. -/
def buildAdjList (st : GraphState) (es : List Edge) : List (List Nat) :=
  es.foldl (adjStep st) (List.replicate st.spheres.length [])

/-- The adjacency list built identically by getConnectedComponents,
detectBridgeEdges and checkBipartite. -/
def buildAdj (st : GraphState) : List (List Nat) :=
  buildAdjList st st.edges

/-- The inner for-loop of checkBipartite over the neighbours of u:
colour uncoloured neighbours with the opposite colour and enqueue them;
a same-coloured neighbour breaks with bipartite = false. -/
def scanNeighbors (u : Nat) (colors : List Int) (queue : List Nat) :
    List Nat → List Int × List Nat × Bool
  | [] => (colors, queue, true)
  | v :: rest =>
    if colors.getD v (-1) == -1 then
      scanNeighbors u (colors.set v (1 - colors.getD u (-1))) (queue ++ [v]) rest
    else if colors.getD v (-1) == colors.getD u (-1) then (colors, queue, false)
    else scanNeighbors u colors queue rest

/-- The while-loop of checkBipartite, fuelled by the number of possible
dequeue steps (each node is enqueued at most once). -/
def bfsLoop (adj : List (List Nat)) : Nat → List Nat → List Int → List Int × Bool
  | _, [], colors => (colors, true)
  | 0, _ :: _, colors => (colors, true)
  | fuel+1, u :: queue, colors =>
    let r := scanNeighbors u colors queue (adj.getD u [])
    if r.2.2 then bfsLoop adj fuel r.2.1 r.1 else (r.1, false)

/-- checkBipartite: 2-colouring by BFS per component over the adjacency
that skips self edges; returns the bipartite flag and the colour array. -/
def checkBipartite (st : GraphState) : Bool × List Int :=
  let n := st.spheres.length
  let adj := buildAdj st
  let r := (List.range n).foldl
    (fun (acc : List Int × Bool) i =>
      if acc.2 then
        if acc.1.getD i (-1) == -1 then
          bfsLoop adj n [i] (acc.1.set i 0)
        else acc
      else acc)
    (List.replicate n (-1), true)
  (r.2, r.1)

/-- applyBipartiteCheck returns the bipartite flag (the node recolouring
it performs is presentation-only). -/
def applyBipartiteCheck (st : GraphState) : Bool :=
  (checkBipartite st).1

/-- The recursive dfs of getConnectedComponents, fuelled by the node
count: mark the node visited, push it on the component, and recurse into
unvisited neighbours. -/
def dfsC (adj : List (List Nat)) (spheres : List Node) :
    Nat → Nat → List Bool × List Node → List Bool × List Node
  | 0, _, s => s
  | fuel+1, i, s =>
    (adj.getD i []).foldl
      (fun s' v => if s'.1.getD v false then s' else dfsC adj spheres fuel v s')
      (s.1.set i true, s.2 ++ [spheres.getD i { uid := 0, label := "" }])

/-- The neighbour fold inside dfsC. -/
def dfsFold (adj : List (List Nat)) (spheres : List Node) (fuel : Nat)
    (vs : List Nat) (s : List Bool × List Node) : List Bool × List Node :=
  vs.foldl (fun s' v => if s'.1.getD v false then s' else dfsC adj spheres fuel v s') s

/-- The outer loop of getConnectedComponents over the given root
indices: start a fresh component at every unvisited root. -/
def gccFold (adj : List (List Nat)) (spheres : List Node) (fuel : Nat)
    (ks : List Nat) (acc : List Bool × List (List Node)) :
    List Bool × List (List Node) :=
  ks.foldl
    (fun acc' i =>
      if acc'.1.getD i false then acc'
      else
        let r := dfsC adj spheres fuel i (acc'.1, [])
        (r.1, acc'.2 ++ [r.2]))
    acc

/-- getConnectedComponents: zero nodes yield no components; otherwise
depth-first search from every unvisited node over the loop-free
adjacency. -/
def getConnectedComponents (st : GraphState) : List (List Node) :=
  let n := st.spheres.length
  if n == 0 then []
  else
    (gccFold (buildAdj st) st.spheres n (List.range n)
      (List.replicate n false, [])).2

/-- The multiplicity lookup of detectBridgeEdges: the number of
non-self edges whose index pair, as an unordered pair, is {i, j}
(the edgeCount map keyed by min-max). -/
def edgeCountAt (st : GraphState) (i j : Nat) : Nat :=
  (st.edges.filter (fun e =>
    !(e.sphere1 == e.sphere2) &&
      ((min (nodeIndex st e.sphere1) (nodeIndex st e.sphere2) == min i j) &&
       (max (nodeIndex st e.sphere1) (nodeIndex st e.sphere2) == max i j)))).length

/-- The edges collected for a detected bridge (u, v): every non-self
edge whose index pair matches (u, v) in either orientation. -/
def matchingIndexEdges (st : GraphState) (u v : Nat) : List Edge :=
  st.edges.filter (fun e =>
    !(e.sphere1 == e.sphere2) &&
      (((nodeIndex st e.sphere1 == u) && (nodeIndex st e.sphere2 == v)) ||
       ((nodeIndex st e.sphere1 == v) && (nodeIndex st e.sphere2 == u))))

/-- The state threaded through the bridge-detection dfs. -/
structure BridgeState where
  disc : List Int
  low : List Int
  time : Int
  bridges : List Edge
deriving DecidableEq, Repr

/-- The discovery/low-link dfs of detectBridgeEdges, fuelled by the node
count: a tree edge (u, v) with low[v] > disc[u] whose unordered index
pair has multiplicity 1 contributes its matching edge records. -/
def bridgeDfs (st : GraphState) (adj : List (List Nat)) :
    Nat → Nat → Int → BridgeState → BridgeState
  | 0, _, _, s => s
  | fuel+1, u, parent, s =>
    (adj.getD u []).foldl
      (fun s' v =>
        if s'.disc.getD v (-1) == -1 then
          let s1 := bridgeDfs st adj fuel v (u : Int) s'
          let s2 := { s1 with
            low := s1.low.set u (min (s1.low.getD u (-1)) (s1.low.getD v (-1))) }
          if s2.low.getD v (-1) > s2.disc.getD u (-1) then
            if edgeCountAt st u v == 1 then
              { s2 with bridges := s2.bridges ++ matchingIndexEdges st u v }
            else s2
          else s2
        else if (v : Int) != parent then
          { s' with
            low := s'.low.set u (min (s'.low.getD u (-1)) (s'.disc.getD v (-1))) }
        else s')
      { s with disc := s.disc.set u s.time, low := s.low.set u s.time,
               time := s.time + 1 }

/-- detectBridgeEdges: run the bridge dfs from every undiscovered node
and return the collected bridge edges. -/
def detectBridgeEdges (st : GraphState) : List Edge :=
  let n := st.spheres.length
  ((List.range n).foldl
    (fun (s : BridgeState) i =>
      if s.disc.getD i (-1) == -1 then bridgeDfs st (buildAdj st) n i (-1) s else s)
    { disc := List.replicate n (-1), low := List.replicate n (-1),
      time := 0, bridges := [] }).bridges

/-- No non-loop edge of the store touches the given node (by uid). -/
def isolatedNode (st : GraphState) (node : Node) : Prop :=
  ∀ e ∈ st.edges, (e.sphere1 == e.sphere2) = false →
    e.sphere1 ≠ node.uid ∧ e.sphere2 ≠ node.uid

instance (st : GraphState) (node : Node) : Decidable (isolatedNode st node) :=
  inferInstanceAs (Decidable (∀ e ∈ st.edges, _ → _))

/-- The stored offsets of the parallel family joining the pair (a, b),
listed in ascending order. -/
def familyOffsets (a b : Nat) (st : GraphState) : List ℚ :=
  (sortByOffset (st.edges.filter (matchesPair a b))).map offsetKey

/-- The ascending offsets that re-centering assigns to a family of n
parallel edges: (i - floor(n/2)) * 0.5 for i = 0..n-1. -/
def recenterTargets (n : Nat) : List ℚ :=
  (List.range n).map (fun i : Nat => ((i : ℚ) - ((n / 2 : Nat) : ℚ)) * (1/2))

/-- The uid and stored offset of every edge, in array order; invariant
under the label-renumbering passes. -/
def uidOffsets (st : GraphState) : List (Nat × Option ℚ) :=
  st.edges.map (fun e => (e.uid, e.parallelOffset))

/-- A user command that grows the graph: placing a node or connecting
two nodes (by uid). -/
inductive BuildOp where
  | node : BuildOp
  | edge : Nat → Nat → BuildOp
deriving DecidableEq, Repr

/-- Run one build command. -/
def applyBuildOp (st : GraphState) : BuildOp → GraphState
  | .node => createNode st
  | .edge a b => createEdge a b st

/-- The state reached from a fresh graph by a sequence of createNode and
createEdge commands. -/
def buildGraph (ops : List BuildOp) : GraphState :=
  ops.foldl applyBuildOp initialState

/-- Two fresh nodes A (uid 0) and B (uid 1). -/
def stTwoNodes : GraphState := createNode (createNode initialState)

/-- Two parallel edges A-B created in sequence. -/
def stTwoParallel : GraphState := createEdge 0 1 (createEdge 0 1 stTwoNodes)

/-- The first of the two parallel edges as stored in stTwoParallel
(after re-centering it carries offset 0 and label e1). -/
def edgeE1 : Edge :=
  { uid := 2, sphere1 := 0, sphere2 := 1, isLoop := false,
    parallelOffset := some 0, label := "e1" }

/-- stTwoParallel after the delete-key removal of edgeE1. -/
def stAfterRemoveE1 : GraphState := removeEdgeOp edgeE1 stTwoParallel

/-- One node with a loop edge on it. -/
def stLoopA : GraphState := createEdge 0 0 (createNode initialState)

/-- Two nodes joined by three parallel edges (explicit store contents),
used to witness the removal re-centering. -/
def stParallel3W : GraphState :=
  { spheres := [{ uid := 0, label := "v1" }, { uid := 1, label := "v2" }]
    edges :=
      [{ uid := 2, sphere1 := 0, sphere2 := 1, isLoop := false,
         parallelOffset := some 0, label := "e1" },
       { uid := 3, sphere1 := 0, sphere2 := 1, isLoop := false,
         parallelOffset := some 0, label := "e2" },
       { uid := 4, sphere1 := 0, sphere2 := 1, isLoop := false,
         parallelOffset := some 0, label := "e3" }]
    nodeCounter := 2, edgeCounter := 3, uidCounter := 5 }

/-- The first stored parallel edge of stParallel3W, as a deletion target. -/
def targetW : Edge :=
  { uid := 2, sphere1 := 0, sphere2 := 1, isLoop := false,
    parallelOffset := some 0, label := "e1" }

/-- The uids of the nodes currently present in the store. -/
def sphereUids (st : GraphState) : List Nat :=
  st.spheres.map Node.uid

/-- Structural consistency: every edge's two endpoints reference nodes
currently present in the store. -/
def edgesValid (st : GraphState) : Prop :=
  ∀ e ∈ st.edges, e.sphere1 ∈ sphereUids st ∧ e.sphere2 ∈ sphereUids st

instance (st : GraphState) : Decidable (edgesValid st) :=
  inferInstanceAs (Decidable
    (∀ e ∈ st.edges, e.sphere1 ∈ sphereUids st ∧ e.sphere2 ∈ sphereUids st))

/-- The endpoint pair of an edge record. -/
def edgeEnds (e : Edge) : Nat × Nat :=
  (e.sphere1, e.sphere2)

/-- Everything stored in an edge record except its display label. -/
def edgeCore (e : Edge) : Nat × Nat × Nat × Bool × Option ℚ :=
  (e.uid, e.sphere1, e.sphere2, e.isLoop, e.parallelOffset)

/-- The node labels read exactly v1..vN in array order. -/
def nodeLabelsCanonical (st : GraphState) : Prop :=
  st.spheres.map Node.label
    = (List.range st.spheres.length).map (fun k => "v" ++ toString (k + 1))

/-- The edge labels read exactly e1..eM in array order. -/
def edgeLabelsCanonical (st : GraphState) : Prop :=
  st.edges.map Edge.label
    = (List.range st.edges.length).map (fun k => "e" ++ toString (k + 1))

/-- What one dfs run (or one run of the neighbour fold) adds to the
visited array and the current component, described by the list ixs of
newly visited node indices: the component grows by exactly the nodes at
those indices in order, the visited array keeps its length, gains
exactly those (previously unvisited, in-range, pairwise distinct)
indices, every new index is a requested root or some adjacency entry,
and the count of unvisited cells drops by the number of new indices. -/
def dfsDelta (adj : List (List Nat)) (spheres : List Node)
    (visited : List Bool) (comp : List Node)
    (out : List Bool × List Node) (ixs : List Nat) (roots : List Nat) : Prop :=
  out.2 = comp ++ ixs.map (fun j => spheres.getD j { uid := 0, label := "" })
  ∧ out.1.length = visited.length
  ∧ ixs.Nodup
  ∧ (∀ j ∈ ixs, visited.getD j false = false ∧ j < visited.length)
  ∧ (∀ j, out.1.getD j false = true ↔ (visited.getD j false = true ∨ j ∈ ixs))
  ∧ (∀ j ∈ ixs, j ∈ roots ∨ ∃ u, j ∈ adj.getD u [])
  ∧ out.1.count false + ixs.length = visited.count false

/-- The correctness statement for dfsC at a given fuel: starting at any
unvisited in-range node with in-range adjacency and enough fuel, the run
is described by a dfsDelta whose new indices include the start node. -/
def dfsCSpec (adj : List (List Nat)) (spheres : List Node) (fuel : Nat) : Prop :=
  ∀ (i : Nat) (visited : List Bool) (comp : List Node),
    visited.getD i false = false → i < visited.length →
    (∀ j v, v ∈ adj.getD j [] → v < visited.length) →
    visited.count false ≤ fuel →
    ∃ ixs, i ∈ ixs ∧ dfsDelta adj spheres visited comp
        (dfsC adj spheres fuel i (visited, comp)) ixs [i]

/-- Concrete store for the component-analysis witness: nodes v1, v2, v3
with a single edge e1 joining v1 and v2; v3 is isolated. -/
def stIsoW : GraphState :=
  { spheres :=
      [{ uid := 0, label := "v1" }, { uid := 1, label := "v2" },
       { uid := 2, label := "v3" }]
    edges :=
      [{ uid := 3, sphere1 := 0, sphere2 := 1, isLoop := false,
         parallelOffset := some 0, label := "e1" }]
    nodeCounter := 3, edgeCounter := 1, uidCounter := 4 }

/-- The isolated node of stIsoW. -/
def nodeW : Node := { uid := 2, label := "v3" }

/-- The invariant maintained by the bridge dfs on its bridges list:
every collected edge is a stored non-loop edge whose unordered index
pair has multiplicity exactly 1 in the store. -/
def bridgeInv (st : GraphState) (bs : List Edge) : Prop :=
  ∀ e ∈ bs, e ∈ st.edges ∧ (e.sphere1 == e.sphere2) = false ∧
    edgeCountAt st (nodeIndex st e.sphere1) (nodeIndex st e.sphere2) = 1

-- Sanity checks on small inputs.
example : (createNode initialState).spheres = [{ uid := 0, label := "v1" }] := by decide

example :
    ((createEdge 0 1 (createNode (createNode initialState))).edges.map
      Edge.parallelOffset) = [some 0] := by
  norm_num [createEdge, createNode, initialState, updateParallelEdgesForNodes,
    matchesPair, sortByOffset, insertByOffset, offsetKey, recenterOffset]

example :
    ((createEdge 0 1 (createEdge 0 1 (createNode (createNode initialState)))).edges.map
      Edge.parallelOffset) = [some 0, some (-(1/2))] := by
  norm_num [createEdge, createNode, initialState, updateParallelEdgesForNodes,
    matchesPair, sortByOffset, insertByOffset, offsetKey, recenterOffset,
    recenterEdge, List.filter, List.findIdx?]

-- -----------------------------------------------------------------
-- Helper lemmas about createEdge and updateParallelEdgesForNodes
-- -----------------------------------------------------------------

/-- A rejected loop request changes only the edge counter. -/
lemma createEdge_loop_rejected (st : GraphState) (u : Nat)
    (h : hasLoopOn u st = true) :
    createEdge u u st = { st with edgeCounter := st.edgeCounter + 1 } := by
  unfold createEdge
  have h' : hasLoopOn u { st with edgeCounter := st.edgeCounter + 1 } = true := h
  simp [h']

/-- An accepted loop request appends the loop edge record. -/
lemma createEdge_loop_accepted (st : GraphState) (u : Nat)
    (h : hasLoopOn u st = false) :
    createEdge u u st =
      { st with
        edgeCounter := st.edgeCounter + 1
        edges := st.edges ++
          [{ uid := st.uidCounter, sphere1 := u, sphere2 := u, isLoop := true,
             parallelOffset := none, label := "e" ++ toString (st.edgeCounter + 1) }]
        uidCounter := st.uidCounter + 1 } := by
  unfold createEdge
  have h' : hasLoopOn u { st with edgeCounter := st.edgeCounter + 1 } = false := h
  simp [h']

/-- updateParallelEdgesForNodes changes at most the parallelOffset field
of each edge: all other projections of the edges array are unchanged. -/
lemma updateParallel_map_proj {β : Type} (f : Edge → β)
    (hf : ∀ e o, f { e with parallelOffset := some o } = f e)
    (s1 s2 : Nat) (st : GraphState) :
    (updateParallelEdgesForNodes s1 s2 st).edges.map f = st.edges.map f := by
  simp only [updateParallelEdgesForNodes]
  split
  · rfl
  · rw [List.map_map]
    apply List.map_congr_left
    intro e _
    simp only [Function.comp_apply]
    by_cases h : matchesPair s1 s2 e = true
    · simp only [h, if_true, recenterEdge]
      rcases hro : recenterOffset _ _ e with _ | o
      · rfl
      · exact hf e o
    · simp [h]

/-- updateParallelEdgesForNodes leaves every edge label unchanged. -/
lemma updateParallel_map_label (s1 s2 : Nat) (st : GraphState) :
    (updateParallelEdgesForNodes s1 s2 st).edges.map Edge.label
      = st.edges.map Edge.label :=
  updateParallel_map_proj Edge.label (fun _ _ => rfl) s1 s2 st

/-- updateParallelEdgesForNodes leaves spheres and counters unchanged. -/
lemma updateParallel_spheres (s1 s2 : Nat) (st : GraphState) :
    (updateParallelEdgesForNodes s1 s2 st).spheres = st.spheres ∧
    (updateParallelEdgesForNodes s1 s2 st).nodeCounter = st.nodeCounter ∧
    (updateParallelEdgesForNodes s1 s2 st).edgeCounter = st.edgeCounter ∧
    (updateParallelEdgesForNodes s1 s2 st).uidCounter = st.uidCounter := by
  simp only [updateParallelEdgesForNodes]
  split <;> simp

-- -----------------------------------------------------------------
-- C6: a second loop-creation request
-- -----------------------------------------------------------------

/-- C6 counterexample: on a node that already has a loop, a second
createEdge(u, u) adds no edge, yet the resulting state differs from the
input state (the edge counter was incremented), refuting the claim that
the graph state is otherwise unmodified. -/
theorem C6_counterexample :
    (createEdge 0 0 stLoopA).edges = stLoopA.edges
    ∧ createEdge 0 0 stLoopA ≠ stLoopA := by
  constructor
  · decide
  · decide

/-- C6 amended: a second loop-creation request on a node that already
has a loop adds no edge and leaves the whole state unmodified except
for the internal edge-id counter, which is incremented. -/
theorem C6_amended_rejection (st : GraphState) (u : Nat)
    (h : hasLoopOn u st = true) :
    createEdge u u st = { st with edgeCounter := st.edgeCounter + 1 } :=
  createEdge_loop_rejected st u h

/-- C6 witness: the amended rejection theorem applied to a concrete
state with a loop on node 0. -/
theorem C6_amended_rejection_witness :
    hasLoopOn 0 stLoopA = true ∧
    createEdge 0 0 stLoopA = { stLoopA with edgeCounter := stLoopA.edgeCounter + 1 } :=
  ⟨by decide, C6_amended_rejection stLoopA 0 (by decide)⟩

-- -----------------------------------------------------------------
-- C9: clicking the already-selected node
-- -----------------------------------------------------------------

/-- C9: when node u is the current selection, selecting u again does not
merely toggle deselection: it routes through createEdge(u, u) — creating
a self-loop on u when u has none and rejecting the request when it has
one — and then deselects. -/
theorem C9_self_click (g : GraphState) (u : Nat) :
    selectNode u { graph := g, firstSelectedSphere := some u }
      = { graph := createEdge u u g, firstSelectedSphere := none }
    ∧ (createEdge u u g).edges =
        (if hasLoopOn u g then g.edges
         else g.edges ++
          [{ uid := g.uidCounter, sphere1 := u, sphere2 := u, isLoop := true,
             parallelOffset := none, label := "e" ++ toString (g.edgeCounter + 1) }]) := by
  refine ⟨rfl, ?_⟩
  cases h : hasLoopOn u g
  · rw [createEdge_loop_accepted g u h]
    simp
  · rw [createEdge_loop_rejected g u h]
    simp

-- -----------------------------------------------------------------
-- C10: the rejected-loop label gap
-- -----------------------------------------------------------------

/-- C10: a rejected loop request increments the edge-id counter without
adding an edge; the next successful createEdge therefore skips one label
index, and updateAllEdgeLabels (run on every deletion) resets the
counter to the current edge count. -/
theorem C10_label_gap (st : GraphState) (u a b : Nat)
    (hloop : hasLoopOn u st = true) (hab : (a == b) = false) :
    (createEdge u u st).edgeCounter = st.edgeCounter + 1
    ∧ (createEdge u u st).edges = st.edges
    ∧ (createEdge a b (createEdge u u st)).edges.map Edge.label
        = st.edges.map Edge.label ++ ["e" ++ toString (st.edgeCounter + 2)]
    ∧ (updateAllEdgeLabels (createEdge u u st)).edgeCounter
        = ((createEdge u u st).edges.length : Int) := by
  rw [createEdge_loop_rejected st u hloop]
  refine ⟨rfl, rfl, ?_, by simp [updateAllEdgeLabels]⟩
  simp only [createEdge, hab, Bool.false_eq_true, if_false]
  rw [updateParallel_map_label]
  have h2 : st.edgeCounter + 1 + 1 = st.edgeCounter + 2 := by ring
  simp [h2]

/-- C10 witness: with a loop e1 on node A and the second loop request
rejected, the next edge A-B is labeled e3 although only one edge existed. -/
theorem C10_label_gap_witness :
    hasLoopOn 0 stLoopA = true ∧ ((0 : Nat) == 1) = false ∧
    (createEdge 0 1 (createEdge 0 0 stLoopA)).edges.map Edge.label
      = stLoopA.edges.map Edge.label ++ ["e" ++ toString (stLoopA.edgeCounter + 2)] :=
  ⟨by decide, by decide, (C10_label_gap stLoopA 0 0 1 (by decide) (by decide)).2.2.1⟩

-- -----------------------------------------------------------------
-- Sorting lemmas for the parallel-offset re-centering
-- -----------------------------------------------------------------

lemma insertByOffset_perm (a : Edge) (l : List Edge) :
    List.Perm (insertByOffset a l) (a :: l) := by
  induction l with
  | nil => exact List.Perm.refl _
  | cons b bs ih =>
    unfold insertByOffset
    split
    · exact List.Perm.refl _
    · exact (ih.cons b).trans (List.Perm.swap a b bs)

lemma sortByOffset_perm (l : List Edge) : List.Perm (sortByOffset l) l := by
  induction l with
  | nil => exact List.Perm.refl _
  | cons a as ih => exact (insertByOffset_perm a (sortByOffset as)).trans (ih.cons a)

lemma insertByOffset_sorted (a : Edge) {l : List Edge}
    (h : l.Pairwise (fun x y => offsetKey x ≤ offsetKey y)) :
    (insertByOffset a l).Pairwise (fun x y => offsetKey x ≤ offsetKey y) := by
  induction l with
  | nil => simp [insertByOffset]
  | cons b bs ih =>
    rw [List.pairwise_cons] at h
    unfold insertByOffset
    split
    · rename_i hab
      refine List.pairwise_cons.mpr ⟨?_, List.pairwise_cons.mpr h⟩
      intro y hy
      rcases List.mem_cons.mp hy with rfl | hy'
      · exact hab
      · exact le_trans hab (h.1 y hy')
    · rename_i hab
      refine List.pairwise_cons.mpr ⟨?_, ih h.2⟩
      intro y hy
      rcases List.mem_cons.mp ((insertByOffset_perm a bs).mem_iff.mp hy) with rfl | hy'
      · exact le_of_not_le hab
      · exact h.1 y hy'

lemma sortByOffset_sorted (l : List Edge) :
    (sortByOffset l).Pairwise (fun x y => offsetKey x ≤ offsetKey y) := by
  induction l with
  | nil => simp [sortByOffset]
  | cons a as ih => exact insertByOffset_sorted a ih

/-- In a list of edges with pairwise distinct uids, searching for the
uid of the element at position i finds exactly position i. -/
lemma findIdx?_uid_get (l : List Edge) (h : (l.map Edge.uid).Nodup)
    (i : Nat) (hi : i < l.length) :
    l.findIdx? (fun x => x.uid == (l.get ⟨i, hi⟩).uid) = some i := by
  induction l generalizing i with
  | nil => simp at hi
  | cons b bs ih =>
    rw [List.map_cons, List.nodup_cons] at h
    rcases i with _ | j
    · simp [List.findIdx?_cons]
    · have hj : j < bs.length := by simpa using hi
      have hget : (b :: bs).get ⟨j + 1, hi⟩ = bs.get ⟨j, hj⟩ := rfl
      have hmem : (bs.get ⟨j, hj⟩).uid ∈ bs.map Edge.uid :=
        List.mem_map_of_mem Edge.uid (List.get_mem bs j hj)
      have hne : (b.uid == (bs.get ⟨j, hj⟩).uid) = false := by
        rcases hbe : b.uid == (bs.get ⟨j, hj⟩).uid with _ | _
        · rfl
        · exact absurd (by rw [eq_of_beq hbe]; exact hmem) h.1
      rw [hget, List.findIdx?_cons, hne]
      simp
      exact ih h.2 j hj

/-- recenterEdge at the element in position k of a uid-distinct list
assigns the offset (k - mid) * 0.5. -/
lemma recenterEdge_get (l : List Edge) (h : (l.map Edge.uid).Nodup)
    (mid : Nat) (k : Fin l.length) :
    recenterEdge l mid (l.get k)
      = { l.get k with parallelOffset := some (((k.1 : ℚ) - (mid : ℚ)) * (1/2)) } := by
  unfold recenterEdge recenterOffset
  rw [findIdx?_uid_get l h k.1 k.2]
  rfl

lemma filter_map_comm (g : Edge → Edge) (p : Edge → Bool)
    (h : ∀ x, p (g x) = p x) (l : List Edge) :
    (l.map g).filter p = (l.filter p).map g := by
  induction l with
  | nil => rfl
  | cons a as ih =>
    by_cases ha : p a = true
    · simp [List.filter_cons, h, ha, ih]
    · simp [List.filter_cons, h, ha, ih]

lemma matchesPair_recenterEdge (a b : Nat) (sorted : List Edge) (mid : Nat) (e : Edge) :
    matchesPair a b (recenterEdge sorted mid e) = matchesPair a b e := by
  unfold recenterEdge
  rcases recenterOffset sorted mid e with _ | o <;> rfl

lemma recenterEdge_uid (sorted : List Edge) (mid : Nat) (e : Edge) :
    (recenterEdge sorted mid e).uid = e.uid := by
  unfold recenterEdge
  rcases recenterOffset sorted mid e with _ | o <;> rfl

/-- An edge joining the unordered pair (a, b) and the unordered pair
(u, v) forces the pairs to coincide. -/
lemma matchesPair_both {a b u v : Nat} {e : Edge}
    (h1 : matchesPair a b e = true) (h2 : matchesPair u v e = true) :
    (a = u ∧ b = v) ∨ (a = v ∧ b = u) := by
  simp only [matchesPair, Bool.and_eq_true, Bool.or_eq_true, Bool.not_eq_true',
    beq_iff_eq] at h1 h2
  rcases h1.2 with ⟨rfl, rfl⟩ | ⟨rfl, rfl⟩ <;>
    rcases h2.2 with ⟨rfl, rfl⟩ | ⟨rfl, rfl⟩ <;> tauto

-- -----------------------------------------------------------------
-- The re-centering of a parallel family
-- -----------------------------------------------------------------

lemma updateParallel_family (a b : Nat) (st : GraphState)
    (h2 : ¬ (st.edges.filter (matchesPair a b)).length ≤ 1) :
    (updateParallelEdgesForNodes a b st).edges.filter (matchesPair a b)
      = (st.edges.filter (matchesPair a b)).map
          (recenterEdge (sortByOffset (st.edges.filter (matchesPair a b)))
            ((st.edges.filter (matchesPair a b)).length / 2)) := by
  simp only [updateParallelEdgesForNodes]
  rw [if_neg h2]
  have hp : ∀ x, matchesPair a b
      (if matchesPair a b x then
        recenterEdge (sortByOffset (st.edges.filter (matchesPair a b)))
          ((st.edges.filter (matchesPair a b)).length / 2) x
      else x) = matchesPair a b x := by
    intro x
    by_cases hx : matchesPair a b x = true
    · simp [hx, matchesPair_recenterEdge]
    · simp [hx]
  rw [filter_map_comm _ _ hp]
  apply List.map_congr_left
  intro e he
  simp [(List.mem_filter.mp he).2]

lemma updateParallel_family_other (u v a b : Nat) (st : GraphState)
    (hdiff : ¬ ((a = u ∧ b = v) ∨ (a = v ∧ b = u))) :
    (updateParallelEdgesForNodes u v st).edges.filter (matchesPair a b)
      = st.edges.filter (matchesPair a b) := by
  simp only [updateParallelEdgesForNodes]
  split
  · rfl
  · have hp : ∀ x, matchesPair a b
        (if matchesPair u v x then
          recenterEdge (sortByOffset (st.edges.filter (matchesPair u v)))
            ((st.edges.filter (matchesPair u v)).length / 2) x
        else x) = matchesPair a b x := by
      intro x
      by_cases hx : matchesPair u v x = true
      · simp [hx, matchesPair_recenterEdge]
      · simp [hx]
    rw [filter_map_comm _ _ hp]
    have hid : ∀ e ∈ st.edges.filter (matchesPair a b),
        (if matchesPair u v e then
          recenterEdge (sortByOffset (st.edges.filter (matchesPair u v)))
            ((st.edges.filter (matchesPair u v)).length / 2) e
        else e) = e := by
      intro e he
      have hab := (List.mem_filter.mp he).2
      by_cases h : matchesPair u v e = true
      · exact absurd (matchesPair_both hab h) hdiff
      · simp [h]
    rw [List.map_congr_left hid]
    simp

lemma recenterTargets_length (n : Nat) : (recenterTargets n).length = n := by
  unfold recenterTargets
  rw [List.length_map, List.length_range]

lemma recenterTargets_sorted (n : Nat) :
    (recenterTargets n).Pairwise (fun x y : ℚ => x < y) := by
  unfold recenterTargets
  apply List.pairwise_map.mpr
  apply (List.pairwise_lt_range n).imp
  intro i j hij
  have hq : (i : ℚ) < (j : ℚ) := by exact_mod_cast hij
  have h2 : (0 : ℚ) < 1/2 := by norm_num
  nlinarith [hq]

/-- The offsets that re-centering stores, read off the sorted family:
exactly the consecutive multiples (i - mid) * 0.5. -/
lemma recenter_offsets (a b : Nat) (st : GraphState)
    (hnd : (st.edges.map Edge.uid).Nodup)
    (h2 : 2 ≤ (st.edges.filter (matchesPair a b)).length) :
    familyOffsets a b (updateParallelEdgesForNodes a b st)
      = recenterTargets (st.edges.filter (matchesPair a b)).length := by
  have hndrel : ((st.edges.filter (matchesPair a b)).map Edge.uid).Nodup :=
    List.Nodup.sublist ((List.filter_sublist _).map Edge.uid) hnd
  have hfam := updateParallel_family a b st (by omega)
  set rel := st.edges.filter (matchesPair a b) with hreldef
  set sorted := sortByOffset rel with hsorteddef
  set n := rel.length with hndef
  set mid := n / 2 with hmiddef
  have hndsorted : (sorted.map Edge.uid).Nodup :=
    ((sortByOffset_perm rel).map Edge.uid).nodup_iff.mpr hndrel
  have hlen : sorted.length = n := (sortByOffset_perm rel).length_eq
  have hA : (sorted.map (recenterEdge sorted mid)).map offsetKey = recenterTargets n := by
    apply List.ext_get
    · rw [List.length_map, List.length_map, hlen, recenterTargets_length]
    · intro i h1 h2'
      have hi : i < sorted.length := by
        rw [List.length_map, List.length_map] at h1
        exact h1
      simp only [List.get_map]
      rw [recenterEdge_get sorted hndsorted mid ⟨i, hi⟩]
      show _ = (recenterTargets n).get ⟨i, h2'⟩
      unfold recenterTargets
      simp only [List.get_map, List.get_range, offsetKey, Option.getD_some]
  have hB : List.Perm ((rel.map (recenterEdge sorted mid)).map offsetKey)
      (recenterTargets n) := by
    have hp : List.Perm (rel.map (recenterEdge sorted mid))
        (sorted.map (recenterEdge sorted mid)) :=
      ((sortByOffset_perm rel).symm.map _)
    exact hA ▸ (hp.map offsetKey)
  have hperm : List.Perm
      ((sortByOffset (rel.map (recenterEdge sorted mid))).map offsetKey)
      (recenterTargets n) :=
    (((sortByOffset_perm _).map offsetKey)).trans hB
  have hsortL : ((sortByOffset (rel.map (recenterEdge sorted mid))).map offsetKey).Pairwise
      (fun x y : ℚ => x ≤ y) :=
    List.pairwise_map.mpr (sortByOffset_sorted _)
  have hsortR : (recenterTargets n).Pairwise (fun x y : ℚ => x ≤ y) :=
    (recenterTargets_sorted n).imp le_of_lt
  have hfinal := List.eq_of_perm_of_sorted hperm hsortL hsortR
  unfold familyOffsets
  rw [hfam]
  exact hfinal

/-- Re-centering is strictly monotone in the old offsets: an edge with a
strictly smaller stored offset is assigned a strictly smaller new offset. -/
lemma recenter_orderPres (rel : List Edge) (hnd : (rel.map Edge.uid).Nodup)
    (mid : Nat) {e f : Edge} (he : e ∈ rel) (hf : f ∈ rel)
    (hlt : offsetKey e < offsetKey f) :
    offsetKey (recenterEdge (sortByOffset rel) mid e)
      < offsetKey (recenterEdge (sortByOffset rel) mid f) := by
  set sorted := sortByOffset rel with hsorteddef
  have hndsorted : (sorted.map Edge.uid).Nodup :=
    ((sortByOffset_perm rel).map Edge.uid).nodup_iff.mpr hnd
  have hsort := sortByOffset_sorted rel
  obtain ⟨i, hi⟩ := List.mem_iff_get.mp ((sortByOffset_perm rel).mem_iff.mpr he)
  obtain ⟨j, hj⟩ := List.mem_iff_get.mp ((sortByOffset_perm rel).mem_iff.mpr hf)
  rw [← hi, ← hj] at hlt ⊢
  rw [recenterEdge_get sorted hndsorted mid i, recenterEdge_get sorted hndsorted mid j]
  have hij : i.1 < j.1 := by
    rcases lt_trichotomy i.1 j.1 with h | h | h
    · exact h
    · exfalso
      have : i = j := Fin.ext h
      rw [this] at hlt
      exact lt_irrefl _ hlt
    · exfalso
      have hle := List.pairwise_iff_get.mp hsort j i h
      exact absurd hlt (not_lt.mpr hle)
  have hq : (i.1 : ℚ) < (j.1 : ℚ) := by exact_mod_cast hij
  simp only [offsetKey, Option.getD_some]
  linarith

-- -----------------------------------------------------------------
-- createEdge and the parallel families
-- -----------------------------------------------------------------

lemma matchesPair_comm (a b : Nat) (e : Edge) :
    matchesPair a b e = matchesPair b a e := by
  simp only [matchesPair]
  rw [Bool.or_comm]

/-- A non-loop createEdge is the push of the new record followed by the
re-centering of its family. -/
lemma createEdge_nonloop_eq (u v : Nat) (st : GraphState) (huv : (u == v) = false) :
    createEdge u v st = updateParallelEdgesForNodes u v (pushNonLoopEdge u v st) := by
  simp only [createEdge, huv, Bool.false_eq_true, if_false, pushNonLoopEdge]

/-- The pushed edge record belongs to the (u, v) family. -/
lemma pushNonLoopEdge_family (u v : Nat) (st : GraphState) (huv : (u == v) = false) :
    (pushNonLoopEdge u v st).edges.filter (matchesPair u v)
      = st.edges.filter (matchesPair u v) ++
        [{ uid := st.uidCounter, sphere1 := u, sphere2 := v, isLoop := false,
           parallelOffset := some
             ((if (st.edges.filter (matchesPair u v)).length % 2 == 0 then (1 : ℚ) else -1)
               * ((((st.edges.filter (matchesPair u v)).length + 1) / 2 : Nat) : ℚ) * (1/2)),
           label := "e" ++ toString (st.edgeCounter + 1) }] := by
  simp only [pushNonLoopEdge, List.filter_append]
  congr 1
  simp [matchesPair]

lemma snoc_uid_nodup (l : List Edge) (e0 : Edge) (uc : Nat) (he : e0.uid = uc)
    (hnd : (l.map Edge.uid).Nodup) (hb : ∀ e ∈ l, e.uid < uc) :
    ((l ++ [e0]).map Edge.uid).Nodup := by
  rw [List.map_append]
  refine List.Nodup.append hnd (by simp) ?_
  intro x hx1 hx2
  simp only [List.map_cons, List.map_nil, List.mem_singleton] at hx2
  obtain ⟨e, hel, hex⟩ := List.mem_map.mp hx1
  have := hb e hel
  omega

/-- Creating a loop edge (accepted or rejected) touches no parallel
family. -/
lemma createEdge_loop_family (u a b : Nat) (st : GraphState) :
    (createEdge u u st).edges.filter (matchesPair a b)
      = st.edges.filter (matchesPair a b) := by
  cases h : hasLoopOn u st
  · rw [createEdge_loop_accepted st u h, List.filter_append]
    simp [matchesPair]
  · rw [createEdge_loop_rejected st u h]

/-- createEdge(u, v) grows the (u, v) family by exactly one edge. -/
lemma createEdge_family_length (u v : Nat) (st : GraphState) (huv : (u == v) = false) :
    ((createEdge u v st).edges.filter (matchesPair u v)).length
      = (st.edges.filter (matchesPair u v)).length + 1 := by
  rw [createEdge_nonloop_eq u v st huv]
  by_cases hlen : ((pushNonLoopEdge u v st).edges.filter (matchesPair u v)).length ≤ 1
  · rw [show updateParallelEdgesForNodes u v (pushNonLoopEdge u v st)
        = pushNonLoopEdge u v st by
      simp only [updateParallelEdgesForNodes]
      rw [if_pos hlen]]
    rw [pushNonLoopEdge_family u v st huv]
    simp
  · rw [updateParallel_family u v _ hlen, List.length_map,
      pushNonLoopEdge_family u v st huv]
    simp

/-- createEdge(u, v) leaves every family with a different unordered
endpoint pair untouched. -/
lemma createEdge_family_other (u v a b : Nat) (st : GraphState)
    (huv : (u == v) = false)
    (hdiff : ¬ ((a = u ∧ b = v) ∨ (a = v ∧ b = u))) :
    (createEdge u v st).edges.filter (matchesPair a b)
      = st.edges.filter (matchesPair a b) := by
  rw [createEdge_nonloop_eq u v st huv,
    updateParallel_family_other u v a b _ hdiff]
  simp only [pushNonLoopEdge, List.filter_append]
  have hdrop : ∀ (w : Nat) (q : Option ℚ) (s : String),
      List.filter (matchesPair a b)
        [{ uid := w, sphere1 := u, sphere2 := v, isLoop := false,
           parallelOffset := q, label := s }] = [] := by
    intro w q s
    have hm : matchesPair a b
        { uid := w, sphere1 := u, sphere2 := v, isLoop := false,
          parallelOffset := q, label := s } = false := by
      cases hm : matchesPair a b
          { uid := w, sphere1 := u, sphere2 := v, isLoop := false,
            parallelOffset := q, label := s }
      · rfl
      · have hself : matchesPair u v
            { uid := w, sphere1 := u, sphere2 := v, isLoop := false,
              parallelOffset := q, label := s } = true := by
          simp [matchesPair]
        exact absurd (matchesPair_both hm hself) hdiff
    simp [List.filter, hm]
  rw [hdrop]
  simp

/-- createEdge(u, v): the touched family is left with the re-centred
consecutive offsets for its new size. -/
lemma createEdge_family (u v : Nat) (st : GraphState) (huv : (u == v) = false)
    (hnd : (st.edges.map Edge.uid).Nodup)
    (hb : ∀ e ∈ st.edges, e.uid < st.uidCounter) :
    familyOffsets u v (createEdge u v st)
      = recenterTargets ((st.edges.filter (matchesPair u v)).length + 1) := by
  rw [createEdge_nonloop_eq u v st huv]
  have hpushfam := pushNonLoopEdge_family u v st huv
  have hpushlen : ((pushNonLoopEdge u v st).edges.filter (matchesPair u v)).length
      = (st.edges.filter (matchesPair u v)).length + 1 := by
    rw [hpushfam]; simp
  by_cases h0 : (st.edges.filter (matchesPair u v)).length = 0
  · have hid : updateParallelEdgesForNodes u v (pushNonLoopEdge u v st)
        = pushNonLoopEdge u v st := by
      simp only [updateParallelEdgesForNodes]
      rw [if_pos (by omega)]
    rw [hid]
    unfold familyOffsets
    rw [hpushfam]
    have hnil : st.edges.filter (matchesPair u v) = [] := List.length_eq_zero.mp h0
    rw [hnil]
    norm_num [sortByOffset, insertByOffset, offsetKey, recenterTargets,
      List.range_succ]
  · have h2 : 2 ≤ ((pushNonLoopEdge u v st).edges.filter (matchesPair u v)).length := by
      omega
    have hndpush : ((pushNonLoopEdge u v st).edges.map Edge.uid).Nodup := by
      simp only [pushNonLoopEdge]
      exact snoc_uid_nodup st.edges _ st.uidCounter rfl hnd hb
    rw [recenter_offsets u v _ hndpush h2, hpushlen]

lemma filter_matchesPair_comm (a b : Nat) (l : List Edge) :
    l.filter (matchesPair a b) = l.filter (matchesPair b a) := by
  rw [show matchesPair a b = matchesPair b a from funext (matchesPair_comm a b)]

lemma familyOffsets_comm (a b : Nat) (st : GraphState) :
    familyOffsets a b st = familyOffsets b a st := by
  unfold familyOffsets
  rw [filter_matchesPair_comm]

/-- One build command preserves distinctness and boundedness of the
edge uids. -/
lemma applyBuildOp_uid_inv (st : GraphState) (op : BuildOp)
    (hnd : (st.edges.map Edge.uid).Nodup)
    (hb : ∀ e ∈ st.edges, e.uid < st.uidCounter) :
    ((applyBuildOp st op).edges.map Edge.uid).Nodup ∧
    (∀ e ∈ (applyBuildOp st op).edges, e.uid < (applyBuildOp st op).uidCounter) := by
  cases op with
  | node =>
    refine ⟨hnd, ?_⟩
    intro e he
    exact Nat.lt_succ_of_lt (hb e he)
  | edge a b =>
    by_cases hab : (a == b) = true
    · have hab' := eq_of_beq hab
      subst hab'
      simp only [applyBuildOp]
      cases hl : hasLoopOn a st
      · rw [createEdge_loop_accepted st a hl]
        refine ⟨snoc_uid_nodup st.edges _ st.uidCounter rfl hnd hb, ?_⟩
        intro e he
        rcases List.mem_append.mp he with h | h
        · exact Nat.lt_succ_of_lt (hb e h)
        · simp only [List.mem_singleton] at h
          subst h
          exact Nat.lt_succ_self _
      · rw [createEdge_loop_rejected st a hl]
        exact ⟨hnd, fun e he => hb e he⟩
    · have hab' : (a == b) = false := by
        cases hc : (a == b)
        · rfl
        · exact absurd hc hab
      simp only [applyBuildOp]
      rw [createEdge_nonloop_eq a b st hab']
      have hmapuid : (updateParallelEdgesForNodes a b (pushNonLoopEdge a b st)).edges.map Edge.uid
          = (pushNonLoopEdge a b st).edges.map Edge.uid :=
        updateParallel_map_proj Edge.uid (fun _ _ => rfl) a b _
      have hndpush : ((pushNonLoopEdge a b st).edges.map Edge.uid).Nodup := by
        simp only [pushNonLoopEdge]
        exact snoc_uid_nodup st.edges _ st.uidCounter rfl hnd hb
      refine ⟨by rw [hmapuid]; exact hndpush, ?_⟩
      intro e he
      have hmem : e.uid ∈ (updateParallelEdgesForNodes a b (pushNonLoopEdge a b st)).edges.map Edge.uid :=
        List.mem_map_of_mem Edge.uid he
      rw [hmapuid] at hmem
      obtain ⟨e0, he0, heq⟩ := List.mem_map.mp hmem
      have huc : (updateParallelEdgesForNodes a b (pushNonLoopEdge a b st)).uidCounter
          = st.uidCounter + 1 := (updateParallel_spheres a b _).2.2.2
      rw [huc, ← heq]
      simp only [pushNonLoopEdge] at he0
      rcases List.mem_append.mp he0 with h | h
      · exact Nat.lt_succ_of_lt (hb e0 h)
      · simp only [List.mem_singleton] at h
        subst h
        exact Nat.lt_succ_self _

/-- One build command preserves the family-offset shape of every
parallel family. -/
lemma applyBuildOp_family (st : GraphState) (op : BuildOp)
    (hnd : (st.edges.map Edge.uid).Nodup)
    (hb : ∀ e ∈ st.edges, e.uid < st.uidCounter)
    (hP : ∀ a b : Nat, familyOffsets a b st
        = recenterTargets ((st.edges.filter (matchesPair a b)).length)) :
    ∀ a b : Nat, familyOffsets a b (applyBuildOp st op)
        = recenterTargets (((applyBuildOp st op).edges.filter (matchesPair a b)).length) := by
  intro a b
  cases op with
  | node => exact hP a b
  | edge u v =>
    by_cases huv : (u == v) = true
    · have huv' := eq_of_beq huv
      subst huv'
      simp only [applyBuildOp]
      have h := hP a b
      unfold familyOffsets at h ⊢
      rw [createEdge_loop_family u a b st]
      exact h
    · have huv' : (u == v) = false := by
        cases hc : (u == v)
        · rfl
        · exact absurd hc huv
      simp only [applyBuildOp]
      by_cases htouched : (a = u ∧ b = v) ∨ (a = v ∧ b = u)
      · rcases htouched with ⟨rfl, rfl⟩ | ⟨rfl, rfl⟩
        · rw [createEdge_family_length a b st huv',
            createEdge_family a b st huv' hnd hb]
        · rw [familyOffsets_comm, filter_matchesPair_comm,
            createEdge_family_length b a st huv',
            createEdge_family b a st huv' hnd hb]
      · have h := hP a b
        unfold familyOffsets at h ⊢
        rw [createEdge_family_other u v a b st huv' htouched]
        exact h

/-- Invariants of states reachable by createNode and createEdge calls:
distinct, bounded edge uids, and every parallel family re-centred. -/
lemma buildGraph_inv (ops : List BuildOp) :
    ∀ st : GraphState,
      (st.edges.map Edge.uid).Nodup →
      (∀ e ∈ st.edges, e.uid < st.uidCounter) →
      (∀ a b : Nat, familyOffsets a b st
          = recenterTargets ((st.edges.filter (matchesPair a b)).length)) →
      ((ops.foldl applyBuildOp st).edges.map Edge.uid).Nodup ∧
      (∀ e ∈ (ops.foldl applyBuildOp st).edges,
          e.uid < (ops.foldl applyBuildOp st).uidCounter) ∧
      (∀ a b : Nat, familyOffsets a b (ops.foldl applyBuildOp st)
          = recenterTargets (((ops.foldl applyBuildOp st).edges.filter (matchesPair a b)).length)) := by
  induction ops with
  | nil =>
    intro st hnd hb hP
    exact ⟨hnd, hb, hP⟩
  | cons op rest ih =>
    intro st hnd hb hP
    have hstep := applyBuildOp_uid_inv st op hnd hb
    exact ih (applyBuildOp st op) hstep.1 hstep.2 (applyBuildOp_family st op hnd hb hP)

-- -----------------------------------------------------------------
-- C4: offsets of a parallel family after creation
-- -----------------------------------------------------------------

/-- C4 counterexample: after adding exactly two parallel edges between
two fresh nodes, the stored offsets are [0, -0.5]; they are not
{+0.5, -0.5} nor any pair symmetric around zero, since -0.5 is stored
but +0.5 is not. -/
theorem C4_counterexample :
    stTwoParallel.edges.map Edge.parallelOffset = [some 0, some (-(1/2))]
    ∧ ¬ (∀ q ∈ stTwoParallel.edges.filterMap Edge.parallelOffset,
          -q ∈ stTwoParallel.edges.filterMap Edge.parallelOffset) := by
  have hfm : stTwoParallel.edges.filterMap Edge.parallelOffset = [0, -(1/2)] := by
    norm_num [stTwoParallel, stTwoNodes, createEdge, createNode, initialState,
      updateParallelEdgesForNodes, matchesPair, sortByOffset, insertByOffset,
      offsetKey, recenterOffset, recenterEdge, List.filter, List.findIdx?,
      List.filterMap]
  refine ⟨?_, fun hsym => ?_⟩
  · norm_num [stTwoParallel, stTwoNodes, createEdge, createNode, initialState,
      updateParallelEdgesForNodes, matchesPair, sortByOffset, insertByOffset,
      offsetKey, recenterOffset, recenterEdge, List.filter, List.findIdx?]
  · have h1 := hsym (-(1/2)) (by rw [hfm]; norm_num)
    rw [hfm] at h1
    norm_num at h1

/-- C4 amended: after any sequence of createNode and createEdge calls,
the stored offsets of every parallel family of size n, in ascending
order, are exactly the consecutive multiples (i - floor(n/2)) * 0.5 for
i = 0..n-1 — distinct, but symmetric around zero only for odd n; the
first edge gets offset 0 and creation offsets alternate in sign before
being re-centred.  In particular two parallel edges carry offsets
{0, -0.5}. -/
theorem C4_amended (ops : List BuildOp) (a b : Nat) :
    familyOffsets a b (buildGraph ops)
      = recenterTargets ((buildGraph ops).edges.filter (matchesPair a b)).length
    ∧ (familyOffsets a b (buildGraph ops)).Pairwise (fun x y : ℚ => x < y)
    ∧ familyOffsets 0 1 stTwoParallel = [-(1/2), 0] := by
  have h := buildGraph_inv ops initialState (by simp [initialState])
    (by intro e he; simp [initialState] at he)
    (by intro a' b'; rfl)
  refine ⟨h.2.2 a b, ?_, ?_⟩
  · unfold buildGraph
    rw [h.2.2 a b]
    exact recenterTargets_sorted _
  · norm_num [familyOffsets, stTwoParallel, stTwoNodes, createEdge, createNode,
      initialState, updateParallelEdgesForNodes, matchesPair, sortByOffset,
      insertByOffset, offsetKey, recenterOffset, recenterEdge, List.filter,
      List.findIdx?]

-- -----------------------------------------------------------------
-- C5: re-centering after removal
-- -----------------------------------------------------------------

lemma zipmap_label_proj {β : Type} (f : Edge → β)
    (hf : ∀ k e, f (relabelEdge k e) = f e) :
    ∀ (l : List Edge) (ks : List Nat), l.length ≤ ks.length →
      ((ks.zip l).map (fun p => relabelEdge p.1 p.2)).map f = l.map f := by
  intro l
  induction l with
  | nil =>
    intro ks h
    simp
  | cons e es ih =>
    intro ks h
    cases ks with
    | nil => simp at h
    | cons k ks' =>
      simp only [List.zip_cons_cons, List.map_cons]
      rw [hf, ih ks' (by simpa using h)]

lemma updateAllEdgeLabels_map_proj {β : Type} (f : Edge → β)
    (hf : ∀ k e, f (relabelEdge k e) = f e) (st : GraphState) :
    (updateAllEdgeLabels st).edges.map f = st.edges.map f := by
  simp only [updateAllEdgeLabels]
  exact zipmap_label_proj f hf st.edges (List.range st.edges.length) (by simp)

lemma uidOffsets_updateAllEdgeLabels (st : GraphState) :
    uidOffsets (updateAllEdgeLabels st) = uidOffsets st := by
  unfold uidOffsets
  exact updateAllEdgeLabels_map_proj (fun e => (e.uid, e.parallelOffset))
    (fun _ _ => rfl) st

lemma uidOffsets_updateAllNodeLabels (st : GraphState) :
    uidOffsets (updateAllNodeLabels st) = uidOffsets st := rfl

lemma deleteEdge_map_proj {β : Type} (f : Edge → β)
    (hf : ∀ k e, f (relabelEdge k e) = f e) (target : Edge) (st : GraphState) :
    (deleteEdge target st).edges.map f
      = (st.edges.filter (fun e => e.uid != target.uid)).map f := by
  simp only [deleteEdge]
  exact updateAllEdgeLabels_map_proj f hf _

/-- C5 counterexample: after the two-parallel-edge state, deleting the
sibling with offset 0 leaves a single remaining sibling whose offset
stays -0.5: it is not re-centred to the consecutive-multiples assignment
(which would be offset 0 for a family of one). -/
theorem C5_counterexample :
    stAfterRemoveE1.edges.map Edge.parallelOffset = [some (-(1/2))]
    ∧ (sortByOffset (stAfterRemoveE1.edges.filter (matchesPair 0 1))).map offsetKey
        ≠ recenterTargets (stAfterRemoveE1.edges.filter (matchesPair 0 1)).length := by
  constructor
  · norm_num [stAfterRemoveE1, stTwoParallel, stTwoNodes, edgeE1, removeEdgeOp,
      deleteEdge, updateAllEdgeLabels, updateAllNodeLabels, relabelEdge,
      relabelNode, createEdge, createNode,
      initialState, updateParallelEdgesForNodes, matchesPair, sortByOffset,
      insertByOffset, offsetKey, recenterOffset, recenterEdge, List.filter_cons,
      List.filter_nil, List.findIdx?, bne, List.range_succ, List.range_zero,
      List.zip_cons_cons, List.zip_nil_right, List.zip_nil_left]
  · norm_num [stAfterRemoveE1, stTwoParallel, stTwoNodes, edgeE1, removeEdgeOp,
      deleteEdge, updateAllEdgeLabels, updateAllNodeLabels, relabelEdge,
      relabelNode, createEdge, createNode,
      initialState, updateParallelEdgesForNodes, matchesPair, sortByOffset,
      insertByOffset, offsetKey, recenterOffset, recenterEdge, recenterTargets,
      List.filter_cons, List.filter_nil, List.findIdx?, List.range_succ,
      List.range_zero, List.zip_cons_cons, List.zip_nil_right,
      List.zip_nil_left, bne]

/-- C5 amended: the delete-key removal of a non-loop edge re-centres the
remaining siblings of its family whenever at least two remain: the
family keeps its array order and membership, its offsets become the
consecutive multiples (i - floor(n/2)) * 0.5 in sorted order, and a
sibling with a strictly smaller old offset receives a strictly smaller
new offset; a single remaining sibling is left with its old offset (see
the counterexample).  The final label-renumbering passes change no uid
or offset. -/
theorem C5_amended (st : GraphState) (target : Edge)
    (hnd : (st.edges.map Edge.uid).Nodup)
    (hs : (target.sphere1 == target.sphere2) = false)
    (h2 : 2 ≤ ((deleteEdge target st).edges.filter
        (matchesPair target.sphere1 target.sphere2)).length) :
    removeEdgeOp target st
      = updateAllEdgeLabels (updateAllNodeLabels
          (updateParallelEdgesForNodes target.sphere1 target.sphere2
            (deleteEdge target st)))
    ∧ uidOffsets (removeEdgeOp target st)
        = uidOffsets (updateParallelEdgesForNodes target.sphere1 target.sphere2
            (deleteEdge target st))
    ∧ familyOffsets target.sphere1 target.sphere2
        (updateParallelEdgesForNodes target.sphere1 target.sphere2 (deleteEdge target st))
        = recenterTargets ((deleteEdge target st).edges.filter
            (matchesPair target.sphere1 target.sphere2)).length
    ∧ ((updateParallelEdgesForNodes target.sphere1 target.sphere2
          (deleteEdge target st)).edges.filter
          (matchesPair target.sphere1 target.sphere2)).map Edge.uid
        = ((deleteEdge target st).edges.filter
            (matchesPair target.sphere1 target.sphere2)).map Edge.uid
    ∧ ∀ e ∈ (deleteEdge target st).edges.filter
          (matchesPair target.sphere1 target.sphere2),
      ∀ f ∈ (deleteEdge target st).edges.filter
          (matchesPair target.sphere1 target.sphere2),
        offsetKey e < offsetKey f →
          offsetKey (recenterEdge
              (sortByOffset ((deleteEdge target st).edges.filter
                (matchesPair target.sphere1 target.sphere2)))
              (((deleteEdge target st).edges.filter
                (matchesPair target.sphere1 target.sphere2)).length / 2) e)
            < offsetKey (recenterEdge
              (sortByOffset ((deleteEdge target st).edges.filter
                (matchesPair target.sphere1 target.sphere2)))
              (((deleteEdge target st).edges.filter
                (matchesPair target.sphere1 target.sphere2)).length / 2) f) := by
  have hbne : (target.sphere1 != target.sphere2) = true := by
    simp [bne, hs]
  have h1 : removeEdgeOp target st
      = updateAllEdgeLabels (updateAllNodeLabels
          (updateParallelEdgesForNodes target.sphere1 target.sphere2
            (deleteEdge target st))) := by
    simp only [removeEdgeOp, hbne, if_true]
  have hndDel : ((deleteEdge target st).edges.map Edge.uid).Nodup := by
    rw [deleteEdge_map_proj Edge.uid (fun _ _ => rfl)]
    exact List.Nodup.sublist ((List.filter_sublist _).map Edge.uid) hnd
  have hndFam : (((deleteEdge target st).edges.filter
      (matchesPair target.sphere1 target.sphere2)).map Edge.uid).Nodup :=
    List.Nodup.sublist ((List.filter_sublist _).map Edge.uid) hndDel
  refine ⟨h1, ?_, ?_, ?_, ?_⟩
  · rw [h1, uidOffsets_updateAllEdgeLabels, uidOffsets_updateAllNodeLabels]
  · exact recenter_offsets target.sphere1 target.sphere2 (deleteEdge target st) hndDel h2
  · rw [updateParallel_family target.sphere1 target.sphere2 (deleteEdge target st) (by omega)]
    rw [List.map_map]
    apply List.map_congr_left
    intro e _
    simp only [Function.comp_apply]
    exact recenterEdge_uid _ _ e
  · intro e he f hf hlt
    exact recenter_orderPres _ hndFam _ he hf hlt

/-- C5 witness: the amended theorem applied to a concrete store of three
parallel edges with one deleted. -/
theorem C5_amended_witness :
    ((stParallel3W.edges.map Edge.uid).Nodup
      ∧ (targetW.sphere1 == targetW.sphere2) = false
      ∧ 2 ≤ ((deleteEdge targetW stParallel3W).edges.filter
          (matchesPair targetW.sphere1 targetW.sphere2)).length)
    ∧ removeEdgeOp targetW stParallel3W
        = updateAllEdgeLabels (updateAllNodeLabels
            (updateParallelEdgesForNodes targetW.sphere1 targetW.sphere2
              (deleteEdge targetW stParallel3W))) :=
  ⟨⟨by decide, by decide, by decide⟩,
    (C5_amended stParallel3W targetW (by decide) (by decide) (by decide)).1⟩

-- -----------------------------------------------------------------
-- C7/C8: label renumbering and cascading deletion
-- -----------------------------------------------------------------

lemma updateAllNodeLabels_edges (st : GraphState) :
    (updateAllNodeLabels st).edges = st.edges := rfl

lemma updateAllEdgeLabels_spheres (st : GraphState) :
    (updateAllEdgeLabels st).spheres = st.spheres := rfl

lemma zipmap_nodeLabel_proj {β : Type} (f : Node → β)
    (hf : ∀ k s, f (relabelNode k s) = f s) :
    ∀ (l : List Node) (ks : List Nat), l.length ≤ ks.length →
      ((ks.zip l).map (fun p => relabelNode p.1 p.2)).map f = l.map f := by
  intro l
  induction l with
  | nil =>
    intro ks h
    simp
  | cons x xs ih =>
    intro ks h
    cases ks with
    | nil => simp at h
    | cons k ks' =>
      simp only [List.zip_cons_cons, List.map_cons]
      rw [hf, ih ks' (by simpa using h)]

lemma updateAllNodeLabels_map_proj {β : Type} (f : Node → β)
    (hf : ∀ k s, f (relabelNode k s) = f s) (st : GraphState) :
    (updateAllNodeLabels st).spheres.map f = st.spheres.map f := by
  simp only [updateAllNodeLabels]
  exact zipmap_nodeLabel_proj f hf st.spheres (List.range st.spheres.length) (by simp)

lemma relabel_nodes_labels :
    ∀ (l : List Node) (ks : List Nat), l.length ≤ ks.length →
      ((ks.zip l).map (fun p => relabelNode p.1 p.2)).map Node.label
        = (ks.take l.length).map (fun k => "v" ++ toString (k + 1)) := by
  intro l
  induction l with
  | nil =>
    intro ks h
    simp
  | cons x xs ih =>
    intro ks h
    cases ks with
    | nil => simp at h
    | cons k ks' =>
      simp only [List.zip_cons_cons, List.map_cons, List.length_cons,
        List.take_succ_cons]
      rw [ih ks' (by simpa using h)]
      rfl

lemma relabel_edges_labels :
    ∀ (l : List Edge) (ks : List Nat), l.length ≤ ks.length →
      ((ks.zip l).map (fun p => relabelEdge p.1 p.2)).map Edge.label
        = (ks.take l.length).map (fun k => "e" ++ toString (k + 1)) := by
  intro l
  induction l with
  | nil =>
    intro ks h
    simp
  | cons x xs ih =>
    intro ks h
    cases ks with
    | nil => simp at h
    | cons k ks' =>
      simp only [List.zip_cons_cons, List.map_cons, List.length_cons,
        List.take_succ_cons]
      rw [ih ks' (by simpa using h)]
      rfl

lemma updateAllNodeLabels_canonical (st : GraphState) :
    nodeLabelsCanonical (updateAllNodeLabels st) := by
  unfold nodeLabelsCanonical
  have hlen : (updateAllNodeLabels st).spheres.length = st.spheres.length := by
    simp [updateAllNodeLabels]
  rw [hlen]
  simp only [updateAllNodeLabels]
  rw [relabel_nodes_labels st.spheres (List.range st.spheres.length) (by simp)]
  rw [List.take_range]
  simp

lemma updateAllEdgeLabels_canonical (st : GraphState) :
    edgeLabelsCanonical (updateAllEdgeLabels st) := by
  unfold edgeLabelsCanonical
  have hlen : (updateAllEdgeLabels st).edges.length = st.edges.length := by
    simp [updateAllEdgeLabels]
  rw [hlen]
  simp only [updateAllEdgeLabels]
  rw [relabel_edges_labels st.edges (List.range st.edges.length) (by simp)]
  rw [List.take_range]
  simp

/-- C7: after every structural deletion (delete-key on a node or an
edge), the remaining node labels are exactly v1..vN and edge labels
e1..eM in array order; mere additions never renumber: createNode only
appends a label and touches no edge, and createEdge only appends a label
and touches no node. -/
theorem C7_label_renumbering (st : GraphState) (node : Node) (target : Edge)
    (a b : Nat) :
    nodeLabelsCanonical (removeNodeOp node st)
    ∧ edgeLabelsCanonical (removeNodeOp node st)
    ∧ nodeLabelsCanonical (removeEdgeOp target st)
    ∧ edgeLabelsCanonical (removeEdgeOp target st)
    ∧ (createNode st).spheres.map Node.label
        = st.spheres.map Node.label ++ ["v" ++ toString (st.nodeCounter + 1)]
    ∧ (createNode st).edges = st.edges
    ∧ ((createEdge a b st).edges.map Edge.label).take st.edges.length
        = st.edges.map Edge.label
    ∧ (createEdge a b st).spheres = st.spheres := by
  refine ⟨updateAllNodeLabels_canonical _, updateAllEdgeLabels_canonical _,
    updateAllNodeLabels_canonical _, updateAllEdgeLabels_canonical _,
    by simp [createNode], rfl, ?_, ?_⟩
  · by_cases hab : (a == b) = true
    · have hab' := eq_of_beq hab
      subst hab'
      cases hl : hasLoopOn a st
      · rw [createEdge_loop_accepted st a hl, List.map_append,
          show st.edges.length = (st.edges.map Edge.label).length from
            (List.length_map _ _).symm]
        exact List.take_left _ _
      · rw [createEdge_loop_rejected st a hl,
          show st.edges.length = (st.edges.map Edge.label).length from
            (List.length_map _ _).symm]
        exact List.take_length _
    · have hab' : (a == b) = false := by
        cases hc : (a == b)
        · rfl
        · exact absurd hc hab
      rw [createEdge_nonloop_eq a b st hab', updateParallel_map_label]
      simp only [pushNonLoopEdge, List.map_append]
      rw [show st.edges.length = (st.edges.map Edge.label).length from
        (List.length_map _ _).symm]
      exact List.take_left _ _
  · by_cases hab : (a == b) = true
    · have hab' := eq_of_beq hab
      subst hab'
      cases hl : hasLoopOn a st
      · rw [createEdge_loop_accepted st a hl]
      · rw [createEdge_loop_rejected st a hl]
    · have hab' : (a == b) = false := by
        cases hc : (a == b)
        · rfl
        · exact absurd hc hab
      rw [createEdge_nonloop_eq a b st hab', (updateParallel_spheres _ _ _).1]
      rfl

lemma removeNodeOp_edges_proj {β : Type} (f : Edge → β)
    (hf : ∀ k e, f (relabelEdge k e) = f e) (node : Node) (st : GraphState) :
    (removeNodeOp node st).edges.map f
      = (st.edges.filter
          (fun e => e.sphere1 != node.uid && e.sphere2 != node.uid)).map f := by
  simp only [removeNodeOp, deleteNodeAndEdges]
  rw [updateAllEdgeLabels_map_proj f hf, updateAllNodeLabels_edges,
    updateAllEdgeLabels_map_proj f hf, updateAllNodeLabels_edges]

lemma removeNodeOp_spheres_proj {β : Type} (g : Node → β)
    (hg : ∀ k s, g (relabelNode k s) = g s) (node : Node) (st : GraphState) :
    (removeNodeOp node st).spheres.map g
      = (st.spheres.filter (fun s => s.uid != node.uid)).map g := by
  simp only [removeNodeOp, deleteNodeAndEdges]
  rw [updateAllEdgeLabels_spheres, updateAllNodeLabels_map_proj g hg,
    updateAllEdgeLabels_spheres, updateAllNodeLabels_map_proj g hg]

lemma removeEdgeOp_edges_ends (target : Edge) (st : GraphState) :
    (removeEdgeOp target st).edges.map edgeEnds
      = (st.edges.filter (fun e => e.uid != target.uid)).map edgeEnds := by
  simp only [removeEdgeOp]
  rw [updateAllEdgeLabels_map_proj edgeEnds (fun _ _ => rfl),
    updateAllNodeLabels_edges]
  split
  · rw [updateParallel_map_proj edgeEnds (fun _ _ => rfl)]
    exact deleteEdge_map_proj edgeEnds (fun _ _ => rfl) target st
  · exact deleteEdge_map_proj edgeEnds (fun _ _ => rfl) target st

lemma removeEdgeOp_sphereUids (target : Edge) (st : GraphState) :
    sphereUids (removeEdgeOp target st) = sphereUids st := by
  unfold sphereUids
  simp only [removeEdgeOp]
  rw [updateAllEdgeLabels_spheres,
    updateAllNodeLabels_map_proj Node.uid (fun _ _ => rfl)]
  split
  · rw [(updateParallel_spheres _ _ _).1]
    rfl
  · rfl

lemma removeNodeOp_edgesValid (node : Node) (st : GraphState)
    (h : edgesValid st) : edgesValid (removeNodeOp node st) := by
  intro e he
  have hmem : edgeEnds e ∈ (removeNodeOp node st).edges.map edgeEnds :=
    List.mem_map_of_mem edgeEnds he
  rw [removeNodeOp_edges_proj edgeEnds (fun _ _ => rfl) node st] at hmem
  obtain ⟨e0, he0, heq⟩ := List.mem_map.mp hmem
  obtain ⟨hm, hp⟩ := List.mem_filter.mp he0
  have hval0 := h e0 hm
  simp only [Bool.and_eq_true, bne_iff_ne, ne_eq] at hp
  have hsph : sphereUids (removeNodeOp node st)
      = (st.spheres.filter (fun s => s.uid != node.uid)).map Node.uid := by
    unfold sphereUids
    exact removeNodeOp_spheres_proj Node.uid (fun _ _ => rfl) node st
  rw [hsph]
  unfold edgeEnds at heq
  have hq1 : e0.sphere1 = e.sphere1 := congrArg Prod.fst heq
  have hq2 : e0.sphere2 = e.sphere2 := congrArg Prod.snd heq
  constructor
  · rw [← hq1]
    obtain ⟨s, hs, hsuid⟩ := List.mem_map.mp hval0.1
    refine List.mem_map.mpr ⟨s, List.mem_filter.mpr ⟨hs, ?_⟩, hsuid⟩
    simp only [bne_iff_ne, ne_eq]
    rw [hsuid]
    exact hp.1
  · rw [← hq2]
    obtain ⟨s, hs, hsuid⟩ := List.mem_map.mp hval0.2
    refine List.mem_map.mpr ⟨s, List.mem_filter.mpr ⟨hs, ?_⟩, hsuid⟩
    simp only [bne_iff_ne, ne_eq]
    rw [hsuid]
    exact hp.2

lemma removeEdgeOp_edgesValid (target : Edge) (st : GraphState)
    (h : edgesValid st) : edgesValid (removeEdgeOp target st) := by
  intro e he
  have hmem : edgeEnds e ∈ (removeEdgeOp target st).edges.map edgeEnds :=
    List.mem_map_of_mem edgeEnds he
  rw [removeEdgeOp_edges_ends target st] at hmem
  obtain ⟨e0, he0, heq⟩ := List.mem_map.mp hmem
  have hval0 := h e0 (List.mem_filter.mp he0).1
  rw [removeEdgeOp_sphereUids target st]
  have hq1 : e0.sphere1 = e.sphere1 := congrArg Prod.fst heq
  have hq2 : e0.sphere2 = e.sphere2 := congrArg Prod.snd heq
  exact ⟨hq1 ▸ hval0.1, hq2 ▸ hval0.2⟩

lemma createNode_edgesValid (st : GraphState) (h : edgesValid st) :
    edgesValid (createNode st) := by
  intro e he
  obtain ⟨h1, h2⟩ := h e he
  unfold sphereUids at h1 h2 ⊢
  simp only [createNode, List.map_append]
  exact ⟨List.mem_append_left _ h1, List.mem_append_left _ h2⟩

lemma createEdge_edgesValid (u v : Nat) (st : GraphState) (h : edgesValid st)
    (hu : u ∈ sphereUids st) (hv : v ∈ sphereUids st) :
    edgesValid (createEdge u v st) := by
  have hsph : sphereUids (createEdge u v st) = sphereUids st := by
    by_cases hab : (u == v) = true
    · have hab' := eq_of_beq hab
      subst hab'
      cases hl : hasLoopOn u st
      · rw [createEdge_loop_accepted st u hl]
        rfl
      · rw [createEdge_loop_rejected st u hl]
        rfl
    · have hab' : (u == v) = false := by
        cases hc : (u == v)
        · rfl
        · exact absurd hc hab
      rw [createEdge_nonloop_eq u v st hab']
      unfold sphereUids
      rw [(updateParallel_spheres _ _ _).1]
      rfl
  intro e he
  rw [hsph]
  by_cases hab : (u == v) = true
  · have hab' := eq_of_beq hab
    subst hab'
    cases hl : hasLoopOn u st
    · rw [createEdge_loop_accepted st u hl] at he
      rcases List.mem_append.mp he with h' | h'
      · exact h e h'
      · simp only [List.mem_singleton] at h'
        subst h'
        exact ⟨hu, hu⟩
    · rw [createEdge_loop_rejected st u hl] at he
      exact h e he
  · have hab' : (u == v) = false := by
      cases hc : (u == v)
      · rfl
      · exact absurd hc hab
    rw [createEdge_nonloop_eq u v st hab'] at he
    have hmem : edgeEnds e
        ∈ (updateParallelEdgesForNodes u v (pushNonLoopEdge u v st)).edges.map edgeEnds :=
      List.mem_map_of_mem edgeEnds he
    rw [updateParallel_map_proj edgeEnds (fun _ _ => rfl)] at hmem
    simp only [pushNonLoopEdge, List.map_append] at hmem
    rcases List.mem_append.mp hmem with h' | h'
    · obtain ⟨e0, he0, heq⟩ := List.mem_map.mp h'
      have hval0 := h e0 he0
      have hq1 : e0.sphere1 = e.sphere1 := congrArg Prod.fst heq
      have hq2 : e0.sphere2 = e.sphere2 := congrArg Prod.snd heq
      exact ⟨hq1 ▸ hval0.1, hq2 ▸ hval0.2⟩
    · simp only [List.map_cons, List.map_nil, List.mem_singleton] at h'
      have hq1 : u = e.sphere1 := congrArg Prod.fst h'.symm
      have hq2 : v = e.sphere2 := congrArg Prod.snd h'.symm
      exact ⟨hq1 ▸ hu, hq2 ▸ hv⟩

lemma clearGraph_edgesValid (st : GraphState) : edgesValid (clearGraph st) := by
  intro e he
  simp [clearGraph] at he


/-- C8: the delete-key removal of a node removes exactly that node and
every incident edge (loops included), and structural validity — every
edge's endpoints reference stored nodes — is preserved by every
operation. -/
theorem C8_cascade_no_dangling (st : GraphState) (node : Node) (target : Edge)
    (u v : Nat) (hval : edgesValid st)
    (hu : u ∈ sphereUids st) (hv : v ∈ sphereUids st) :
    (removeNodeOp node st).edges.map edgeCore
        = (st.edges.filter
            (fun e => e.sphere1 != node.uid && e.sphere2 != node.uid)).map edgeCore
    ∧ (removeNodeOp node st).spheres.map Node.uid
        = (st.spheres.filter (fun s => s.uid != node.uid)).map Node.uid
    ∧ edgesValid (removeNodeOp node st)
    ∧ edgesValid (removeEdgeOp target st)
    ∧ edgesValid (createNode st)
    ∧ edgesValid (createEdge u v st)
    ∧ edgesValid (clearGraph st) :=
  ⟨removeNodeOp_edges_proj edgeCore (fun _ _ => rfl) node st,
    removeNodeOp_spheres_proj Node.uid (fun _ _ => rfl) node st,
    removeNodeOp_edgesValid node st hval,
    removeEdgeOp_edgesValid target st hval,
    createNode_edgesValid st hval,
    createEdge_edgesValid u v st hval hu hv,
    clearGraph_edgesValid st⟩

/-- C8 witness: the theorem applied to the concrete three-parallel-edge
store, deleting node v1. -/
theorem C8_cascade_no_dangling_witness :
    (edgesValid stParallel3W ∧ 0 ∈ sphereUids stParallel3W ∧ 1 ∈ sphereUids stParallel3W)
    ∧ edgesValid (removeNodeOp { uid := 0, label := "v1" } stParallel3W) :=
  ⟨⟨by decide, by decide, by decide⟩,
    (C8_cascade_no_dangling stParallel3W { uid := 0, label := "v1" } targetW 0 1
      (by decide) (by decide) (by decide)).2.2.1⟩

-- -----------------------------------------------------------------
-- C2: bipartiteness and self-loops
-- -----------------------------------------------------------------

/-- C2 failing input: a store whose only edge is a self-loop on its only
node.  checkBipartite skips self edges when building the adjacency and
never special-cases them, so applyBipartiteCheck returns true even
though the claim (and the spec) require a loop to force failure; the
loop edge also joins two nodes (the same node) of the same returned
colour. -/
theorem C2_loop_bipartite_bug :
    hasLoopOn 0 stLoopA = true
    ∧ stLoopA.edges.map Edge.isLoop = [true]
    ∧ applyBipartiteCheck stLoopA = true
    ∧ (checkBipartite stLoopA).2 = [0] := by
  refine ⟨by decide, by decide, by decide, by decide⟩

-- ------------------------------------------------------------------
-- getD / set / count basics
-- ------------------------------------------------------------------

lemma getD_set_self {α : Type} (l : List α) (i : Nat) (x d : α)
    (hi : i < l.length) : (l.set i x).getD i d = x := by
  induction l generalizing i with
  | nil => simp at hi
  | cons a as ih =>
    cases i with
    | zero => rfl
    | succ j =>
      simp only [List.set_cons_succ, List.getD_cons_succ]
      exact ih j (by simpa using hi)

lemma getD_set_ne {α : Type} (l : List α) (i j : Nat) (x d : α)
    (h : i ≠ j) : (l.set i x).getD j d = l.getD j d := by
  induction l generalizing i j with
  | nil => rfl
  | cons a as ih =>
    cases i with
    | zero =>
      cases j with
      | zero => exact absurd rfl h
      | succ t => rfl
    | succ s =>
      cases j with
      | zero => rfl
      | succ t =>
        simp only [List.set_cons_succ, List.getD_cons_succ]
        exact ih s t (fun hh => h (by rw [hh]))

lemma count_false_set_true (l : List Bool) (i : Nat) (hi : i < l.length)
    (h : l.getD i false = false) :
    (l.set i true).count false + 1 = l.count false := by
  induction l generalizing i with
  | nil => simp at hi
  | cons a as ih =>
    cases i with
    | zero =>
      have ha : a = false := h
      subst ha
      simp [List.count_cons]
    | succ j =>
      have h' : as.getD j false = false := h
      have := ih j (by simpa using hi) h'
      cases a <;> simp only [List.set_cons_succ, List.count_cons] <;> omega

lemma getD_replicate_self {α : Type} (m t : Nat) (c : α) :
    (List.replicate m c).getD t c = c := by
  induction m generalizing t with
  | zero => rfl
  | succ m ih =>
    cases t with
    | zero => rfl
    | succ s => exact ih s

-- ------------------------------------------------------------------
-- dfsDelta combinators
-- ------------------------------------------------------------------

lemma dfsDelta_roots_mono {adj : List (List Nat)} {spheres : List Node}
    {visited : List Bool} {comp : List Node} {out : List Bool × List Node}
    {ixs r₁ r₂ : List Nat}
    (hd : dfsDelta adj spheres visited comp out ixs r₁)
    (hr : ∀ j ∈ r₁, j ∈ r₂) :
    dfsDelta adj spheres visited comp out ixs r₂ := by
  obtain ⟨h1, h2, h3, h4, h5, h6, h7⟩ := hd
  exact ⟨h1, h2, h3, h4, h5, fun j hj => (h6 j hj).imp (hr j) id, h7⟩

lemma dfsDelta_append {adj : List (List Nat)} {spheres : List Node}
    {visited : List Bool} {comp : List Node}
    {out₁ out₂ : List Bool × List Node} {ixs₁ ixs₂ roots : List Nat}
    {roots₁ roots₂ : List Nat}
    (h₁ : dfsDelta adj spheres visited comp out₁ ixs₁ roots₁)
    (h₂ : dfsDelta adj spheres out₁.1 out₁.2 out₂ ixs₂ roots₂)
    (hr₁ : ∀ j ∈ roots₁, j ∈ roots) (hr₂ : ∀ j ∈ roots₂, j ∈ roots) :
    dfsDelta adj spheres visited comp out₂ (ixs₁ ++ ixs₂) roots := by
  obtain ⟨c1, l1, n1, u1, i1, r1, k1⟩ := h₁
  obtain ⟨c2, l2, n2, u2, i2, r2, k2⟩ := h₂
  refine ⟨?_, ?_, ?_, ?_, ?_, ?_, ?_⟩
  · rw [c2, c1, List.map_append, List.append_assoc]
  · rw [l2, l1]
  · rw [List.nodup_append]
    refine ⟨n1, n2, ?_⟩
    intro j hj1 hj2
    have ht := (i1 j).mpr (Or.inr hj1)
    have hf := (u2 j hj2).1
    rw [ht] at hf
    exact Bool.noConfusion hf
  · intro j hj
    rcases List.mem_append.mp hj with h | h
    · exact u1 j h
    · have hu := u2 j h
      constructor
      · cases hb : visited.getD j false
        · rfl
        · exfalso
          have := (i1 j).mpr (Or.inl hb)
          rw [this] at hu
          exact Bool.noConfusion hu.1
      · rw [← l1]; exact hu.2
  · intro j
    rw [i2 j, i1 j]
    simp [List.mem_append, or_assoc]
  · intro j hj
    rcases List.mem_append.mp hj with h | h
    · exact (r1 j h).imp (hr₁ j) id
    · exact (r2 j h).imp (hr₂ j) id
  · rw [List.length_append]
    omega

lemma dfsDelta_mark {adj : List (List Nat)} {spheres : List Node}
    {visited : List Bool} {comp : List Node} {i : Nat}
    {out : List Bool × List Node} {ixs : List Nat}
    (hvi : visited.getD i false = false) (hi : i < visited.length)
    (hd : dfsDelta adj spheres (visited.set i true)
        (comp ++ [spheres.getD i { uid := 0, label := "" }]) out ixs
        (adj.getD i [])) :
    dfsDelta adj spheres visited comp out (i :: ixs) [i] := by
  obtain ⟨hcomp, hlen, hnodup, hunv, hiff, hroots, hcnt⟩ := hd
  have hlen1 : (visited.set i true).length = visited.length := by simp
  have hinotin : i ∉ ixs := by
    intro hmem
    have h1 := (hunv i hmem).1
    rw [getD_set_self visited i true false hi] at h1
    exact Bool.noConfusion h1
  refine ⟨?_, ?_, ?_, ?_, ?_, ?_, ?_⟩
  · rw [hcomp, List.append_assoc]
    rfl
  · rw [hlen, hlen1]
  · exact List.nodup_cons.mpr ⟨hinotin, hnodup⟩
  · intro j hj
    rcases List.mem_cons.mp hj with rfl | hj'
    · exact ⟨hvi, hi⟩
    · have h1 := hunv j hj'
      refine ⟨?_, by rw [← hlen1]; exact h1.2⟩
      by_cases hji : j = i
      · subst hji; exact hvi
      · have h2 := h1.1
        rw [getD_set_ne visited i j true false (fun hh => hji hh.symm)] at h2
        exact h2
  · intro j
    rw [hiff j]
    by_cases hji : j = i
    · subst hji
      rw [getD_set_self visited j true false hi]
      simp [hvi]
    · rw [getD_set_ne visited i j true false (fun hh => hji hh.symm)]
      simp [List.mem_cons, hji]
  · intro j hj
    rcases List.mem_cons.mp hj with rfl | hj'
    · exact Or.inl (List.mem_singleton.mpr rfl)
    · rcases hroots j hj' with hin | hex
      · exact Or.inr ⟨i, hin⟩
      · exact Or.inr hex
  · have hc1 := count_false_set_true visited i hi hvi
    simp only [List.length_cons]
    omega

-- ------------------------------------------------------------------
-- The dfs specification
-- ------------------------------------------------------------------

lemma dfsFold_spec (adj : List (List Nat)) (spheres : List Node) (fuel : Nat)
    (hP : dfsCSpec adj spheres fuel) :
    ∀ (vs : List Nat) (visited : List Bool) (comp : List Node),
      (∀ j v, v ∈ adj.getD j [] → v < visited.length) →
      (∀ v ∈ vs, v < visited.length) →
      visited.count false ≤ fuel →
      ∃ ixs, dfsDelta adj spheres visited comp
          (dfsFold adj spheres fuel vs (visited, comp)) ixs vs := by
  intro vs
  induction vs with
  | nil =>
    intro visited comp _ _ _
    have h0 : dfsFold adj spheres fuel [] (visited, comp) = (visited, comp) := rfl
    rw [h0]
    exact ⟨[], by simp, rfl, by simp, by simp, by simp, by simp, by simp⟩
  | cons v rest ihvs =>
    intro visited comp hadj hvs hcount
    have hstep : dfsFold adj spheres fuel (v :: rest) (visited, comp)
        = dfsFold adj spheres fuel rest
            (if visited.getD v false then (visited, comp)
             else dfsC adj spheres fuel v (visited, comp)) := rfl
    by_cases hv : visited.getD v false = true
    · rw [hstep, if_pos hv]
      obtain ⟨ixs, hd⟩ := ihvs visited comp hadj
        (fun w hw => hvs w (List.mem_cons_of_mem _ hw)) hcount
      exact ⟨ixs, dfsDelta_roots_mono hd (fun j hj => List.mem_cons_of_mem _ hj)⟩
    · have hv0 : visited.getD v false = false := by
        revert hv; cases visited.getD v false <;> simp
      rw [hstep, if_neg hv]
      obtain ⟨ixs₁, hvmem, hd₁⟩ := hP v visited comp hv0 (hvs v (by simp)) hadj hcount
      have hlen₁ : (dfsC adj spheres fuel v (visited, comp)).1.length
          = visited.length := hd₁.2.1
      have hadj₂ : ∀ j w, w ∈ adj.getD j [] →
          w < (dfsC adj spheres fuel v (visited, comp)).1.length := by
        rw [hlen₁]; exact hadj
      have hvs₂ : ∀ w ∈ rest,
          w < (dfsC adj spheres fuel v (visited, comp)).1.length := by
        rw [hlen₁]; exact fun w hw => hvs w (List.mem_cons_of_mem _ hw)
      have hcount₂ : (dfsC adj spheres fuel v (visited, comp)).1.count false
          ≤ fuel := by
        have := hd₁.2.2.2.2.2.2
        omega
      obtain ⟨ixs₂, hd₂⟩ := ihvs (dfsC adj spheres fuel v (visited, comp)).1
        (dfsC adj spheres fuel v (visited, comp)).2 hadj₂ hvs₂ hcount₂
      rw [Prod.mk.eta] at hd₂
      refine ⟨ixs₁ ++ ixs₂,
        dfsDelta_roots_mono (dfsDelta_append hd₁ hd₂ ?_ ?_) (fun j hj => hj)⟩
      · intro j hj
        rw [List.mem_singleton.mp hj]
        exact List.mem_cons_self v rest
      · exact fun j hj => List.mem_cons_of_mem _ hj

lemma dfsC_spec (adj : List (List Nat)) (spheres : List Node) :
    ∀ fuel : Nat, dfsCSpec adj spheres fuel := by
  intro fuel
  induction fuel with
  | zero =>
    intro i visited comp hvi hi _ hcount
    exfalso
    have hmem : (false : Bool) ∈ visited := by
      have hg : visited.getD i false = visited[i] := List.getD_eq_getElem visited false hi
      rw [hvi] at hg
      rw [hg]
      exact List.getElem_mem hi
    have := List.count_pos_iff.mpr hmem
    omega
  | succ fuel ih =>
    intro i visited comp hvi hi hadj hcount
    have heq : dfsC adj spheres (fuel + 1) i (visited, comp)
        = dfsFold adj spheres fuel (adj.getD i [])
            (visited.set i true,
             comp ++ [spheres.getD i { uid := 0, label := "" }]) := rfl
    have hlen1 : (visited.set i true).length = visited.length := by simp
    have hadj' : ∀ j w, w ∈ adj.getD j [] → w < (visited.set i true).length := by
      rw [hlen1]; exact hadj
    have hcnt' : (visited.set i true).count false ≤ fuel := by
      have := count_false_set_true visited i hi hvi
      omega
    obtain ⟨ixs, hd⟩ := dfsFold_spec adj spheres fuel ih (adj.getD i [])
      (visited.set i true) (comp ++ [spheres.getD i { uid := 0, label := "" }])
      hadj' (fun w hw => hadj' i w hw) hcnt'
    rw [heq]
    exact ⟨i :: ixs, List.mem_cons_self i ixs, dfsDelta_mark hvi hi hd⟩

-- ------------------------------------------------------------------
-- The outer fold of getConnectedComponents
-- ------------------------------------------------------------------

lemma gccFold_spec (adj : List (List Nat)) (spheres : List Node) (fuel : Nat) :
    ∀ (ks : List Nat) (visited : List Bool) (comps : List (List Node)),
      (∀ j v, v ∈ adj.getD j [] → v < visited.length) →
      (∀ i ∈ ks, i < visited.length) →
      visited.count false ≤ fuel →
      ∃ ixss : List (List Nat),
        (gccFold adj spheres fuel ks (visited, comps)).2
            = comps ++ ixss.map (fun ixs =>
                ixs.map (fun j => spheres.getD j { uid := 0, label := "" }))
        ∧ (gccFold adj spheres fuel ks (visited, comps)).1.length = visited.length
        ∧ (∀ j, (gccFold adj spheres fuel ks (visited, comps)).1.getD j false = true
            ↔ (visited.getD j false = true ∨ j ∈ ixss.flatten))
        ∧ ixss.flatten.Nodup
        ∧ (∀ j ∈ ixss.flatten, visited.getD j false = false ∧ j < visited.length)
        ∧ (∀ i ∈ ks,
            (gccFold adj spheres fuel ks (visited, comps)).1.getD i false = true)
        ∧ (∀ j ∈ ixss.flatten, j ∈ ks ∨ ∃ u, j ∈ adj.getD u []) := by
  intro ks
  induction ks with
  | nil =>
    intro visited comps _ _ _
    exact ⟨[], by simp [gccFold], rfl, by simp [gccFold], by simp, by simp,
      by simp, by simp⟩
  | cons i ks ih =>
    intro visited comps hadj hks hcount
    have hstep : gccFold adj spheres fuel (i :: ks) (visited, comps)
        = gccFold adj spheres fuel ks
            (if visited.getD i false then (visited, comps)
             else ((dfsC adj spheres fuel i (visited, [])).1,
                   comps ++ [(dfsC adj spheres fuel i (visited, [])).2])) := rfl
    by_cases hv : visited.getD i false = true
    · rw [hstep, if_pos hv]
      obtain ⟨ixss, h1, h2, h3, h4, h5, h6, h7⟩ := ih visited comps hadj
        (fun w hw => hks w (List.mem_cons_of_mem _ hw)) hcount
      refine ⟨ixss, h1, h2, h3, h4, h5, ?_, ?_⟩
      · intro w hw
        rcases List.mem_cons.mp hw with rfl | hw'
        · exact (h3 w).mpr (Or.inl hv)
        · exact h6 w hw'
      · exact fun j hj => (h7 j hj).imp (List.mem_cons_of_mem _) id
    · have hv0 : visited.getD i false = false := by
        revert hv; cases visited.getD i false <;> simp
      rw [hstep, if_neg hv]
      obtain ⟨ixs₁, hmem₁, hd₁⟩ := dfsC_spec adj spheres fuel i visited [] hv0
        (hks i (by simp)) hadj hcount
      obtain ⟨hcomp₁, hlen₁, hnodup₁, hunv₁, hiff₁, hroots₁, hcnt₁⟩ := hd₁
      have hadj₂ : ∀ j w, w ∈ adj.getD j [] →
          w < (dfsC adj spheres fuel i (visited, [])).1.length := by
        rw [hlen₁]; exact hadj
      have hks₂ : ∀ w ∈ ks,
          w < (dfsC adj spheres fuel i (visited, [])).1.length := by
        rw [hlen₁]; exact fun w hw => hks w (List.mem_cons_of_mem _ hw)
      have hcount₂ : (dfsC adj spheres fuel i (visited, [])).1.count false
          ≤ fuel := by omega
      obtain ⟨ixss₂, h1, h2, h3, h4, h5, h6, h7⟩ :=
        ih (dfsC adj spheres fuel i (visited, [])).1
          (comps ++ [(dfsC adj spheres fuel i (visited, [])).2]) hadj₂ hks₂ hcount₂
      refine ⟨ixs₁ :: ixss₂, ?_, ?_, ?_, ?_, ?_, ?_, ?_⟩
      · rw [h1, hcomp₁]
        simp [List.append_assoc]
      · rw [h2, hlen₁]
      · intro j
        rw [h3 j, hiff₁ j]
        simp [List.mem_append, or_assoc]
      · rw [List.flatten_cons, List.nodup_append]
        refine ⟨hnodup₁, h4, ?_⟩
        intro j hj1 hj2
        have ht := (hiff₁ j).mpr (Or.inr hj1)
        have hf := (h5 j hj2).1
        rw [ht] at hf
        exact Bool.noConfusion hf
      · intro j hj
        rw [List.flatten_cons] at hj
        rcases List.mem_append.mp hj with h | h
        · exact hunv₁ j h
        · have hu := h5 j h
          constructor
          · cases hb : visited.getD j false
            · rfl
            · exfalso
              have := (hiff₁ j).mpr (Or.inl hb)
              rw [this] at hu
              exact Bool.noConfusion hu.1
          · rw [← hlen₁]; exact hu.2
      · intro w hw
        rcases List.mem_cons.mp hw with rfl | hw'
        · exact (h3 w).mpr (Or.inl ((hiff₁ w).mpr (Or.inr hmem₁)))
        · exact h6 w hw'
      · intro j hj
        rw [List.flatten_cons] at hj
        rcases List.mem_append.mp hj with h | h
        · rcases hroots₁ j h with hin | hex
          · have hji := List.mem_singleton.mp hin
            subst hji
            exact Or.inl (List.mem_cons_self j ks)
          · exact Or.inr hex
        · exact (h7 j h).imp (List.mem_cons_of_mem _) id

lemma dfsC_nil_adj (adj : List (List Nat)) (spheres : List Node)
    (fuel i : Nat) (s : List Bool × List Node)
    (h : adj.getD i [] = []) (hf : fuel ≠ 0) :
    dfsC adj spheres fuel i s
      = (s.1.set i true, s.2 ++ [spheres.getD i { uid := 0, label := "" }]) := by
  cases fuel with
  | zero => exact absurd rfl hf
  | succ m =>
    show (adj.getD i []).foldl _ _ = _
    rw [h]
    rfl

lemma gccFold_append (adj : List (List Nat)) (spheres : List Node) (fuel : Nat)
    (ks₁ ks₂ : List Nat) (acc : List Bool × List (List Node)) :
    gccFold adj spheres fuel (ks₁ ++ ks₂) acc
      = gccFold adj spheres fuel ks₂ (gccFold adj spheres fuel ks₁ acc) := by
  unfold gccFold
  exact List.foldl_append ..

lemma map_getD_range (spheres : List Node) :
    (List.range spheres.length).map
        (fun j => spheres.getD j { uid := 0, label := "" }) = spheres := by
  apply List.ext_get
  · rw [List.length_map, List.length_range]
  · intro i h1 h2
    rw [List.get_map, List.get_range]
    exact List.getD_eq_getElem spheres _ h2

lemma range_split (n k : Nat) (hk : k < n) :
    List.range n
      = List.range k ++ k :: (List.range (n - 1 - k)).map (fun t => k + 1 + t) := by
  have h1 : n = k + (n - k) := by omega
  have h2 : n - k = (n - 1 - k) + 1 := by omega
  calc List.range n = List.range (k + (n - k)) := by rw [← h1]
    _ = List.range k ++ (List.range (n - k)).map (fun x => k + x) :=
        List.range_add k (n - k)
    _ = List.range k ++ (List.range ((n - 1 - k) + 1)).map (fun x => k + x) := by
        rw [← h2]
    _ = List.range k ++ (0 :: (List.range (n - 1 - k)).map Nat.succ).map
          (fun x => k + x) := by rw [List.range_succ_eq_map]
    _ = List.range k ++ k :: (List.range (n - 1 - k)).map (fun t => k + 1 + t) := by
        simp only [List.map_cons, Nat.add_zero, List.map_map]
        congr 1
        congr 1
        exact List.map_congr_left (fun t _ => by
          show k + Nat.succ t = k + 1 + t
          omega)

-- ------------------------------------------------------------------
-- Adjacency-list structure lemmas
-- ------------------------------------------------------------------

lemma pushAdj_getD_mem {adj : List (List Nat)} {i j t w : Nat}
    (h : w ∈ (pushAdj adj i j).getD t []) :
    w ∈ adj.getD t [] ∨ (t = i ∧ w = j) := by
  unfold pushAdj at h
  by_cases hti : t = i
  · subst hti
    by_cases hlt : t < adj.length
    · rw [getD_set_self adj t _ [] hlt] at h
      rcases List.mem_append.mp h with h' | h'
      · exact Or.inl h'
      · exact Or.inr ⟨rfl, List.mem_singleton.mp h'⟩
    · rw [List.set_eq_of_length_le (by omega)] at h
      exact Or.inl h
  · rw [getD_set_ne adj i t _ [] (fun hh => hti hh.symm)] at h
    exact Or.inl h

lemma adjStep_getD_mem {st : GraphState} {adj : List (List Nat)} {e : Edge}
    {t w : Nat} (h : w ∈ (adjStep st adj e).getD t []) :
    w ∈ adj.getD t [] ∨ ((e.sphere1 == e.sphere2) = false ∧
      ((t = nodeIndex st e.sphere1 ∧ w = nodeIndex st e.sphere2) ∨
       (t = nodeIndex st e.sphere2 ∧ w = nodeIndex st e.sphere1))) := by
  unfold adjStep at h
  by_cases hse : (e.sphere1 == e.sphere2) = true
  · rw [if_pos hse] at h
    exact Or.inl h
  · rw [if_neg hse] at h
    have hse' : (e.sphere1 == e.sphere2) = false := by
      revert hse; cases (e.sphere1 == e.sphere2) <;> simp
    rcases pushAdj_getD_mem h with h' | h'
    · rcases pushAdj_getD_mem h' with h'' | h''
      · exact Or.inl h''
      · exact Or.inr ⟨hse', Or.inl h''⟩
    · exact Or.inr ⟨hse', Or.inr h'⟩

lemma foldl_adjStep_getD_mem (st : GraphState) :
    ∀ (es : List Edge) (acc : List (List Nat)) (t w : Nat),
      w ∈ (es.foldl (adjStep st) acc).getD t [] →
      w ∈ acc.getD t [] ∨ ∃ e ∈ es, (e.sphere1 == e.sphere2) = false ∧
        ((t = nodeIndex st e.sphere1 ∧ w = nodeIndex st e.sphere2) ∨
         (t = nodeIndex st e.sphere2 ∧ w = nodeIndex st e.sphere1)) := by
  intro es
  induction es with
  | nil => exact fun acc t w h => Or.inl h
  | cons e es ih =>
    intro acc t w h
    rw [List.foldl_cons] at h
    rcases ih (adjStep st acc e) t w h with h' | h'
    · rcases adjStep_getD_mem h' with h'' | h''
      · exact Or.inl h''
      · exact Or.inr ⟨e, List.mem_cons_self e es, h''⟩
    · obtain ⟨e', he', hp⟩ := h'
      exact Or.inr ⟨e', List.mem_cons_of_mem _ he', hp⟩

lemma buildAdj_getD_mem {st : GraphState} {t w : Nat}
    (h : w ∈ (buildAdj st).getD t []) :
    ∃ e ∈ st.edges, (e.sphere1 == e.sphere2) = false ∧
      ((t = nodeIndex st e.sphere1 ∧ w = nodeIndex st e.sphere2) ∨
       (t = nodeIndex st e.sphere2 ∧ w = nodeIndex st e.sphere1)) := by
  rcases foldl_adjStep_getD_mem st st.edges
      (List.replicate st.spheres.length []) t w h with h' | h'
  · exfalso
    rw [getD_replicate_self] at h'
    exact List.not_mem_nil w h'
  · exact h'

lemma nodeIndex_lt (st : GraphState) (u : Nat) (hu : u ∈ sphereUids st) :
    nodeIndex st u < st.spheres.length := by
  obtain ⟨s, hs, hsu⟩ := List.mem_map.mp hu
  exact List.findIdx_lt_length_of_exists ⟨s, hs, by simp [hsu]⟩

lemma nodeIndex_uid (st : GraphState) (u : Nat) (hu : u ∈ sphereUids st) :
    (st.spheres.getD (nodeIndex st u) { uid := 0, label := "" }).uid = u := by
  have hlt : st.spheres.findIdx (fun s => s.uid == u) < st.spheres.length :=
    nodeIndex_lt st u hu
  have hfind := @List.findIdx_getElem Node (fun s => s.uid == u) st.spheres hlt
  show (st.spheres.getD (st.spheres.findIdx (fun s => s.uid == u))
    { uid := 0, label := "" }).uid = u
  rw [List.getD_eq_getElem st.spheres _ hlt]
  exact eq_of_beq hfind

lemma buildAdj_bound (st : GraphState) (hval : edgesValid st) :
    ∀ t w, w ∈ (buildAdj st).getD t [] → w < st.spheres.length := by
  intro t w h
  obtain ⟨e, he, _, hor⟩ := buildAdj_getD_mem h
  rcases hor with ⟨_, hw⟩ | ⟨_, hw⟩
  · rw [hw]
    exact nodeIndex_lt st e.sphere2 (hval e he).2
  · rw [hw]
    exact nodeIndex_lt st e.sphere1 (hval e he).1

lemma mem_uid_inj (st : GraphState) (hnd : (sphereUids st).Nodup)
    {s t : Node} (hs : s ∈ st.spheres) (ht : t ∈ st.spheres)
    (h : s.uid = t.uid) : s = t :=
  List.inj_on_of_nodup_map hnd hs ht h

lemma isolated_adj (st : GraphState) (node : Node)
    (hval : edgesValid st)
    (hnode : node ∈ st.spheres) (hiso : isolatedNode st node) :
    (buildAdj st).getD (nodeIndex st node.uid) [] = []
    ∧ ∀ u, nodeIndex st node.uid ∉ (buildAdj st).getD u [] := by
  have hmemu : node.uid ∈ sphereUids st := List.mem_map_of_mem Node.uid hnode
  have hk : nodeIndex st node.uid < st.spheres.length := nodeIndex_lt st node.uid hmemu
  have hidx : ∀ (v : Nat), v ∈ sphereUids st →
      nodeIndex st v = nodeIndex st node.uid → v = node.uid := by
    intro v hv hvi
    have h1 := nodeIndex_uid st v hv
    have h2 := nodeIndex_uid st node.uid hmemu
    rw [hvi, h2] at h1
    exact h1.symm
  constructor
  · rw [List.eq_nil_iff_forall_not_mem]
    intro w hw
    obtain ⟨e, he, hns, hor⟩ := buildAdj_getD_mem hw
    have hisoe := hiso e he hns
    rcases hor with ⟨ht, _⟩ | ⟨ht, _⟩
    · exact hisoe.1 (hidx e.sphere1 (hval e he).1 ht.symm)
    · exact hisoe.2 (hidx e.sphere2 (hval e he).2 ht.symm)
  · intro u hw
    obtain ⟨e, he, hns, hor⟩ := buildAdj_getD_mem hw
    have hisoe := hiso e he hns
    rcases hor with ⟨_, hwv⟩ | ⟨_, hwv⟩
    · exact hisoe.2 (hidx e.sphere2 (hval e he).2 hwv.symm)
    · exact hisoe.1 (hidx e.sphere1 (hval e he).1 hwv.symm)

lemma adjStep_filter (st : GraphState) :
    ∀ (es : List Edge) (acc : List (List Nat)),
      es.foldl (adjStep st) acc
        = (es.filter (fun e => !(e.sphere1 == e.sphere2))).foldl (adjStep st) acc := by
  intro es
  induction es with
  | nil => exact fun acc => rfl
  | cons e es ih =>
    intro acc
    by_cases hse : (e.sphere1 == e.sphere2) = true
    · have h1 : (!(e.sphere1 == e.sphere2)) = false := by rw [hse]; rfl
      have h2 : adjStep st acc e = acc := by unfold adjStep; rw [if_pos hse]
      rw [List.foldl_cons, List.filter_cons, h1, if_neg (by simp), h2]
      exact ih acc
    · have h1 : (!(e.sphere1 == e.sphere2)) = true := by
        revert hse; cases (e.sphere1 == e.sphere2) <;> simp
      rw [List.foldl_cons, List.filter_cons, h1, if_pos rfl, List.foldl_cons]
      exact ih (adjStep st acc e)

/-- C3: for every store with valid edge references and distinct node
uids, getConnectedComponents partitions the node set — its components'
concatenation is a permutation of the spheres array (every node in
exactly one component, union equal to the full node set); every
isolated node (no non-loop incident edge) forms the singleton component
[node]; the adjacency construction ignores loop edges outright; and a
store with zero nodes yields the empty component list. -/
theorem C3_components_partition (st : GraphState)
    (hval : edgesValid st)
    (hnd : (sphereUids st).Nodup) :
    List.Perm (getConnectedComponents st).flatten st.spheres
    ∧ (∀ node, node ∈ st.spheres → isolatedNode st node →
        [node] ∈ getConnectedComponents st)
    ∧ buildAdj st
        = buildAdjList st (st.edges.filter (fun e => !(e.sphere1 == e.sphere2)))
    ∧ (∀ es nc ec uc, getConnectedComponents
        { spheres := [], edges := es, nodeCounter := nc, edgeCounter := ec,
          uidCounter := uc } = []) := by
  have hadjB := buildAdj_bound st hval
  refine ⟨?_, ?_, ?_, ?_⟩
  · -- the components cover every node exactly once
    by_cases hn0 : st.spheres.length = 0
    · have hsp : st.spheres = [] := List.length_eq_zero.mp hn0
      have hempty : getConnectedComponents st = [] := by
        simp only [getConnectedComponents]
        rw [if_pos (by simp [hn0])]
      rw [hempty, hsp]
      exact List.Perm.refl []
    · have hgcc : getConnectedComponents st
          = (gccFold (buildAdj st) st.spheres st.spheres.length
              (List.range st.spheres.length)
              (List.replicate st.spheres.length false, [])).2 := by
        simp only [getConnectedComponents]
        rw [if_neg (by simp [hn0])]
      obtain ⟨ixss, h1, _, h3, h4, h5, h6, _⟩ :=
        gccFold_spec (buildAdj st) st.spheres st.spheres.length
          (List.range st.spheres.length)
          (List.replicate st.spheres.length false) []
          (by rw [List.length_replicate]; exact hadjB)
          (by rw [List.length_replicate]; exact fun i hi => List.mem_range.mp hi)
          (le_of_le_of_eq (List.count_le_length _ _) (List.length_replicate ..))
      have hperm_flat : List.Perm ixss.flatten (List.range st.spheres.length) := by
        apply (List.perm_ext_iff_of_nodup h4 (List.nodup_range _)).mpr
        intro j
        constructor
        · intro hj
          have hlt := (h5 j hj).2
          rw [List.length_replicate] at hlt
          exact List.mem_range.mpr hlt
        · intro hj
          have hcov := h6 j hj
          rw [h3 j] at hcov
          rcases hcov with hrep | hm
          · exfalso
            rw [getD_replicate_self] at hrep
            exact Bool.noConfusion hrep
          · exact hm
      rw [hgcc, h1, List.nil_append]
      have hmj : (ixss.map (fun ixs =>
            ixs.map (fun j => st.spheres.getD j { uid := 0, label := "" }))).flatten
          = ixss.flatten.map (fun j => st.spheres.getD j { uid := 0, label := "" }) := by
        simp [List.map_flatten]
      rw [hmj]
      have hpm := hperm_flat.map (fun j => st.spheres.getD j { uid := 0, label := "" })
      rw [map_getD_range st.spheres] at hpm
      exact hpm
  · -- every isolated node forms a singleton component
    intro node hnode hiso
    have hmemu : node.uid ∈ sphereUids st := List.mem_map_of_mem Node.uid hnode
    have hk : nodeIndex st node.uid < st.spheres.length :=
      nodeIndex_lt st node.uid hmemu
    have hn1 : st.spheres.length ≠ 0 := by omega
    obtain ⟨hadjK, hnoK⟩ := isolated_adj st node hval hnode hiso
    have hgcc : getConnectedComponents st
        = (gccFold (buildAdj st) st.spheres st.spheres.length
            (List.range st.spheres.length)
            (List.replicate st.spheres.length false, [])).2 := by
      simp only [getConnectedComponents]
      rw [if_neg (by simp [hn1])]
    set k := nodeIndex st node.uid with hkdef
    have hgetD : st.spheres.getD k { uid := 0, label := "" } = node := by
      have h1 := nodeIndex_uid st node.uid hmemu
      have h2 : st.spheres.getD k { uid := 0, label := "" } ∈ st.spheres := by
        rw [List.getD_eq_getElem st.spheres _ hk]
        exact List.getElem_mem hk
      exact mem_uid_inj st hnd h2 hnode h1
    set tl := (List.range (st.spheres.length - 1 - k)).map (fun t => k + 1 + t)
      with htl
    have hsplit : List.range st.spheres.length = List.range k ++ k :: tl :=
      range_split st.spheres.length k hk
    obtain ⟨ixss₁, g1, g2, g3, g4, g5, g6, g7⟩ :=
      gccFold_spec (buildAdj st) st.spheres st.spheres.length (List.range k)
        (List.replicate st.spheres.length false) []
        (by rw [List.length_replicate]; exact hadjB)
        (by rw [List.length_replicate]; intro i hi
            have := List.mem_range.mp hi; omega)
        (le_of_le_of_eq (List.count_le_length _ _) (List.length_replicate ..))
    set acc1 := gccFold (buildAdj st) st.spheres st.spheres.length (List.range k)
        (List.replicate st.spheres.length false, []) with hacc1
    have hkfree : acc1.1.getD k false = false := by
      cases hb : acc1.1.getD k false
      · rfl
      · exfalso
        rcases (g3 k).mp hb with hrep | hm
        · rw [getD_replicate_self] at hrep
          exact Bool.noConfusion hrep
        · rcases g7 k hm with hin | ⟨u, hu⟩
          · exact absurd (List.mem_range.mp hin) (lt_irrefl k)
          · exact hnoK u hu
    have hlen1 : acc1.1.length = st.spheres.length := by
      rw [g2, List.length_replicate]
    have hr : dfsC (buildAdj st) st.spheres st.spheres.length k (acc1.1, [])
        = (acc1.1.set k true, [node]) := by
      rw [dfsC_nil_adj _ _ _ _ _ hadjK hn1, hgetD]
      rfl
    have hstep : gccFold (buildAdj st) st.spheres st.spheres.length (k :: tl) acc1
        = gccFold (buildAdj st) st.spheres st.spheres.length tl
            (acc1.1.set k true, acc1.2 ++ [[node]]) := by
      have h0 : gccFold (buildAdj st) st.spheres st.spheres.length (k :: tl) acc1
          = gccFold (buildAdj st) st.spheres st.spheres.length tl
              (if acc1.1.getD k false then acc1
               else ((dfsC (buildAdj st) st.spheres st.spheres.length k
                        (acc1.1, [])).1,
                     acc1.2 ++ [(dfsC (buildAdj st) st.spheres st.spheres.length k
                        (acc1.1, [])).2])) := rfl
      rw [h0, if_neg (by rw [hkfree]; simp), hr]
    obtain ⟨ixss₂, f1, _, _, _, _, _, _⟩ :=
      gccFold_spec (buildAdj st) st.spheres st.spheres.length tl
        (acc1.1.set k true) (acc1.2 ++ [[node]])
        (by rw [List.length_set, hlen1]; exact hadjB)
        (by rw [List.length_set, hlen1]; intro i hi
            obtain ⟨t, ht, rfl⟩ := List.mem_map.mp hi
            have := List.mem_range.mp ht; omega)
        (le_of_le_of_eq (List.count_le_length _ _)
          (by rw [List.length_set, hlen1]))
    rw [hgcc, hsplit, gccFold_append, ← hacc1, hstep, f1]
    refine List.mem_append.mpr (Or.inl ?_)
    exact List.mem_append.mpr (Or.inr (List.mem_singleton.mpr rfl))
  · -- loop edges are ignored by the adjacency construction
    unfold buildAdj buildAdjList
    exact adjStep_filter st st.edges _
  · -- the empty graph yields the empty partition
    intro es nc ec uc
    rfl

/-- Witness for C3 at the concrete three-node store stIsoW whose node
v3 is isolated: all hypotheses hold by evaluation and the isolated node
forms the singleton component. -/
theorem C3_components_partition_witness :
    edgesValid stIsoW ∧ (sphereUids stIsoW).Nodup ∧ nodeW ∈ stIsoW.spheres
      ∧ isolatedNode stIsoW nodeW
      ∧ [nodeW] ∈ getConnectedComponents stIsoW :=
  ⟨by decide, by decide, by decide, by decide,
    (C3_components_partition stIsoW (by decide) (by decide)).2.1 nodeW
      (by decide) (by decide)⟩

-- ------------------------------------------------------------------
-- Bridge-reporting lemmas
-- ------------------------------------------------------------------

lemma matchingIndexEdges_spec (st : GraphState) (u v : Nat) (e : Edge)
    (he : e ∈ matchingIndexEdges st u v) :
    e ∈ st.edges ∧ (e.sphere1 == e.sphere2) = false ∧
      ((nodeIndex st e.sphere1 = u ∧ nodeIndex st e.sphere2 = v) ∨
       (nodeIndex st e.sphere1 = v ∧ nodeIndex st e.sphere2 = u)) := by
  obtain ⟨hmem, hp⟩ := List.mem_filter.mp he
  simp only [Bool.and_eq_true, Bool.or_eq_true, beq_iff_eq, Bool.not_eq_true'] at hp
  exact ⟨hmem, hp.1, hp.2⟩

lemma edgeCountAt_swap (st : GraphState) (u v : Nat) :
    edgeCountAt st v u = edgeCountAt st u v := by
  unfold edgeCountAt
  simp only [min_comm v u, max_comm v u]

lemma bridgeInv_append (st : GraphState) (bs : List Edge) (u v : Nat)
    (h : bridgeInv st bs) (hcount : edgeCountAt st u v = 1) :
    bridgeInv st (bs ++ matchingIndexEdges st u v) := by
  intro e he
  rcases List.mem_append.mp he with he' | he'
  · exact h e he'
  · obtain ⟨hmem, hloop, hor⟩ := matchingIndexEdges_spec st u v e he'
    refine ⟨hmem, hloop, ?_⟩
    rcases hor with ⟨h1, h2⟩ | ⟨h1, h2⟩
    · rw [h1, h2]; exact hcount
    · rw [h1, h2, edgeCountAt_swap]; exact hcount

lemma bridgeDfs_bridges_inv (st : GraphState) (adj : List (List Nat)) :
    ∀ (fuel u : Nat) (parent : Int) (s : BridgeState),
      bridgeInv st s.bridges → bridgeInv st (bridgeDfs st adj fuel u parent s).bridges := by
  intro fuel
  induction fuel with
  | zero => exact fun u parent s h => h
  | succ fuel ih =>
    intro u parent s h
    have hstep : ∀ (s' : BridgeState) (v : Nat), bridgeInv st s'.bridges →
        bridgeInv st
          (if s'.disc.getD v (-1) == -1 then
              let s1 := bridgeDfs st adj fuel v (u : Int) s'
              let s2 := { s1 with
                low := s1.low.set u (min (s1.low.getD u (-1)) (s1.low.getD v (-1))) }
              if s2.low.getD v (-1) > s2.disc.getD u (-1) then
                if edgeCountAt st u v == 1 then
                  { s2 with bridges := s2.bridges ++ matchingIndexEdges st u v }
                else s2
              else s2
            else if (v : Int) != parent then
              { s' with
                low := s'.low.set u (min (s'.low.getD u (-1)) (s'.disc.getD v (-1))) }
            else s').bridges := by
      intro s' v hs'
      by_cases h1 : (s'.disc.getD v (-1) == -1) = true
      · rw [if_pos h1]
        have hrec : bridgeInv st (bridgeDfs st adj fuel v (u : Int) s').bridges :=
          ih v (u : Int) s' hs'
        by_cases h2 : ((bridgeDfs st adj fuel v (u : Int) s').low.set u
              (min ((bridgeDfs st adj fuel v (u : Int) s').low.getD u (-1))
                ((bridgeDfs st adj fuel v (u : Int) s').low.getD v (-1)))).getD v (-1)
            > (bridgeDfs st adj fuel v (u : Int) s').disc.getD u (-1)
        · rw [if_pos h2]
          by_cases h3 : (edgeCountAt st u v == 1) = true
          · rw [if_pos h3]
            exact bridgeInv_append st _ u v hrec (beq_iff_eq.mp h3)
          · rw [if_neg h3]
            exact hrec
        · rw [if_neg h2]
          exact hrec
      · rw [if_neg h1]
        by_cases h4 : ((v : Int) != parent) = true
        · rw [if_pos h4]
          exact hs'
        · rw [if_neg h4]
          exact hs'
    have hfold : ∀ (l : List Nat) (s' : BridgeState), bridgeInv st s'.bridges →
        bridgeInv st (l.foldl
          (fun (s' : BridgeState) v =>
            if s'.disc.getD v (-1) == -1 then
              let s1 := bridgeDfs st adj fuel v (u : Int) s'
              let s2 := { s1 with
                low := s1.low.set u (min (s1.low.getD u (-1)) (s1.low.getD v (-1))) }
              if s2.low.getD v (-1) > s2.disc.getD u (-1) then
                if edgeCountAt st u v == 1 then
                  { s2 with bridges := s2.bridges ++ matchingIndexEdges st u v }
                else s2
              else s2
            else if (v : Int) != parent then
              { s' with
                low := s'.low.set u (min (s'.low.getD u (-1)) (s'.disc.getD v (-1))) }
            else s') s').bridges := by
      intro l
      induction l with
      | nil => exact fun s' hs' => hs'
      | cons v rest ihl =>
        intro s' hs'
        rw [List.foldl_cons]
        exact ihl _ (hstep s' v hs')
    exact hfold (adj.getD u [])
      { s with disc := s.disc.set u s.time, low := s.low.set u s.time,
               time := s.time + 1 } h

/-- Every edge that detectBridgeEdges reports is a stored non-loop edge
whose unordered index pair has multiplicity exactly 1 in the edgeCount
map, because the collection site sits under the literal guards
low[v] > disc[u] and edgeCount == 1. -/
theorem detectBridges_only_multiplicity_one (st : GraphState) :
    ∀ e ∈ detectBridgeEdges st, e ∈ st.edges ∧ (e.sphere1 == e.sphere2) = false ∧
      edgeCountAt st (nodeIndex st e.sphere1) (nodeIndex st e.sphere2) = 1 := by
  have hfold : ∀ (l : List Nat) (s : BridgeState), bridgeInv st s.bridges →
      bridgeInv st (l.foldl
        (fun (s : BridgeState) i =>
          if s.disc.getD i (-1) == -1 then
            bridgeDfs st (buildAdj st) st.spheres.length i (-1) s
          else s) s).bridges := by
    intro l
    induction l with
    | nil => exact fun s hs => hs
    | cons i rest ihl =>
      intro s hs
      rw [List.foldl_cons]
      apply ihl
      by_cases h1 : (s.disc.getD i (-1) == -1) = true
      · rw [if_pos h1]
        exact bridgeDfs_bridges_inv st (buildAdj st) st.spheres.length i (-1) s hs
      · rw [if_neg h1]
        exact hs
  exact hfold (List.range st.spheres.length)
    { disc := List.replicate st.spheres.length (-1),
      low := List.replicate st.spheres.length (-1), time := 0, bridges := [] }
    (fun e he => absurd he (List.not_mem_nil e))

/-- A member of a parallel family of multiplicity at least 2 (a second
distinct non-loop record shares its unordered index pair) is never
reported as a bridge. -/
theorem detectBridges_no_parallel_family (st : GraphState) (e e' : Edge)
    (he : e ∈ st.edges) (he' : e' ∈ st.edges) (hne : e ≠ e')
    (hl : (e.sphere1 == e.sphere2) = false) (hl' : (e'.sphere1 == e'.sphere2) = false)
    (hpair : min (nodeIndex st e'.sphere1) (nodeIndex st e'.sphere2)
        = min (nodeIndex st e.sphere1) (nodeIndex st e.sphere2))
    (hpair' : max (nodeIndex st e'.sphere1) (nodeIndex st e'.sphere2)
        = max (nodeIndex st e.sphere1) (nodeIndex st e.sphere2)) :
    e ∉ detectBridgeEdges st := by
  intro hmem
  have hsub := detectBridges_only_multiplicity_one st e hmem
  set p := fun x : Edge =>
    !(x.sphere1 == x.sphere2) &&
      ((min (nodeIndex st x.sphere1) (nodeIndex st x.sphere2)
          == min (nodeIndex st e.sphere1) (nodeIndex st e.sphere2)) &&
       (max (nodeIndex st x.sphere1) (nodeIndex st x.sphere2)
          == max (nodeIndex st e.sphere1) (nodeIndex st e.sphere2))) with hp
  have hpe : p e = true := by
    rw [hp]
    simp [hl]
  have hpe' : p e' = true := by
    rw [hp]
    simp [hl', hpair, hpair']
  have hmem1 : e ∈ st.edges.filter p := List.mem_filter.mpr ⟨he, hpe⟩
  have hmem2 : e' ∈ st.edges.filter p := List.mem_filter.mpr ⟨he', hpe'⟩
  have hcount : (st.edges.filter p).length = 1 := hsub.2.2
  obtain ⟨x, hx⟩ := List.length_eq_one.mp hcount
  rw [hx] at hmem1 hmem2
  exact hne ((List.mem_singleton.mp hmem1).trans (List.mem_singleton.mp hmem2).symm)
